import Mathlib

/-!
Verification development for the routiium LLM gateway.

This file gives a shallow embedding, in Lean 4, of the parts of the
routiium source that the specification's testable claims talk about:

* `src/auth.rs` — opaque bearer-token management (hex codec, token
  grammar, SHA-256, constant-time equality, `verify`, `generate_key`,
  `revoke`, `set_expiration`);
* `src/server.rs` — the Responses-SSE → Chat-SSE stream transducer;
* `src/router_client.rs` — the router decision cache (`RouterCache`);
* `src/routing_config.rs` — routing rules, glob matching, backend
  selection, transform application and route resolution;
* `src/conversion.rs` — Chat ↔ Responses conversions;
* `src/bedrock.rs` — the Anthropic-on-Bedrock → Chat response converter.

Machine integers are modelled as `Nat` with explicit `% 2^w` where the
source relies on wrapping; bytes are `Nat`s below 256; Rust `&str` and
`String` values are modelled as `List Char` in the byte/char-processing
modules (auth, routing) and as Lean `String` where only whole-string
equality is used (conversion, bedrock).  Fallible operations return
`Option`.  External-library behaviour (serde_json parsing/serialisation
of typed structs, the regex engine) is abstracted as function
parameters or opaque predicates; everything written in the repository
itself is embedded from its source.  The `models` module of the crate
(plain data declarations for Chat and Responses payloads) is not part
of the provided sources; those record types are modelled from the spec,
with the fields the embedded functions use.
-/

namespace Routiium

namespace Auth

/-- `hex_val` from `src/auth.rs`: value of one hex digit. -/
def hex_val (b : Char) : Option Nat :=
  if '0' ≤ b ∧ b ≤ '9' then some (b.toNat - '0'.toNat)
  else if 'a' ≤ b ∧ b ≤ 'f' then some (b.toNat - 'a'.toNat + 10)
  else if 'A' ≤ b ∧ b ≤ 'F' then some (b.toNat - 'A'.toNat + 10)
  else none

/-- Decode consecutive pairs of hex digits (the loop body of `hex_decode`). -/
def hex_decode_pairs : List Char → Option (List Nat)
  | [] => some []
  | [_] => none
  | hi :: lo :: rest => do
      let h ← hex_val hi
      let l ← hex_val lo
      let tail ← hex_decode_pairs rest
      pure (((h <<< 4) ||| l) :: tail)

/-- Whitespace trim used by `hex_decode` (Rust `str::trim`; all inputs are ASCII). -/
def trimChars (s : List Char) : List Char :=
  ((s.dropWhile Char.isWhitespace).reverse.dropWhile Char.isWhitespace).reverse

/-- `hex_decode` from `src/auth.rs`: trims, rejects odd length, decodes pairs. -/
def hex_decode (s : List Char) : Option (List Nat) :=
  let s := trimChars s
  if s.length % 2 = 0 then hex_decode_pairs s else none

/-- The `HEX` digit table from `src/auth.rs`. -/
def HEXDIGITS : List Char := "0123456789abcdef".toList

/-- One output digit of `hex_encode`. -/
def hexDigit (n : Nat) : Char := HEXDIGITS.getD n 'x'

/-- `hex_encode` from `src/auth.rs`: two lowercase digits per byte. -/
def hex_encode (bs : List Nat) : List Char :=
  (bs.map (fun b => [hexDigit (b >>> 4), hexDigit (b &&& 0x0f)])).flatten

/-- `is_hex` from `src/auth.rs`. -/
def isHexByte (c : Char) : Bool :=
  c.isDigit || ('a' ≤ c && c ≤ 'f') || ('A' ≤ c && c ≤ 'F')

/-- `is_hex` from `src/auth.rs`: every byte is an ASCII hex digit. -/
def is_hex (s : List Char) : Bool := s.all isHexByte

/-- Rust `str::split_once('.')`: split at the first `'.'`. -/
def splitOnceDot : List Char → Option (List Char × List Char)
  | [] => none
  | c :: rest =>
      if c = '.' then some ([], rest)
      else (splitOnceDot rest).map (fun p => (c :: p.1, p.2))

/-- `parse_token` from `src/auth.rs`: accepts `sk_<32 hex id>.<≥32 hex secret>`. -/
def parse_token (token : List Char) : Option (List Char × List Char) :=
  if token.take 3 = "sk_".toList then
    match splitOnceDot (token.drop 3) with
    | none => none
    | some (id_part, secret_part) =>
        if id_part.length == 32 && is_hex id_part
            && 32 ≤ secret_part.length && is_hex secret_part then
          some (id_part, secret_part)
        else none
  else none

/-- `ct_eq` from `src/auth.rs`: length check, then OR-accumulated XOR over bytes. -/
def ct_eq (a b : List Nat) : Bool :=
  if a.length = b.length then
    (List.zipWith Nat.xor a b).foldl Nat.lor 0 == 0
  else false

/-! ### SHA-256 (`src/auth.rs`, minimal pure-Rust implementation)

The source implements a streaming hasher (`update`/`finalize`).  On the
single-shot use `sha256(data)` made by the crate, that is the classical
padded-message form embedded here: append `0x80`, zero-pad to 56 mod 64,
append the 64-bit big-endian bit length, and compress 64-byte blocks. -/

/-- 32-bit wrapping addition (`u32::wrapping_add`). -/
def add32 (a b : Nat) : Nat := (a + b) % 4294967296

/-- `rotr` from `src/auth.rs` (`u32::rotate_right`). -/
def rotr (x n : Nat) : Nat := ((x >>> n) ||| (x <<< (32 - n))) &&& 0xffffffff

/-- `ch` from `src/auth.rs`; `!x` on `u32` is XOR with the all-ones mask. -/
def ch (x y z : Nat) : Nat := ((x &&& y) ^^^ ((x ^^^ 0xffffffff) &&& z))

/-- `maj` from `src/auth.rs`. -/
def maj (x y z : Nat) : Nat := (x &&& y) ^^^ (x &&& z) ^^^ (y &&& z)

/-- `big_sigma0` from `src/auth.rs`. -/
def big_sigma0 (x : Nat) : Nat := rotr x 2 ^^^ rotr x 13 ^^^ rotr x 22

/-- `big_sigma1` from `src/auth.rs`. -/
def big_sigma1 (x : Nat) : Nat := rotr x 6 ^^^ rotr x 11 ^^^ rotr x 25

/-- `small_sigma0` from `src/auth.rs`. -/
def small_sigma0 (x : Nat) : Nat := rotr x 7 ^^^ rotr x 18 ^^^ (x >>> 3)

/-- `small_sigma1` from `src/auth.rs`. -/
def small_sigma1 (x : Nat) : Nat := rotr x 17 ^^^ rotr x 19 ^^^ (x >>> 10)

/-- The `K256` round constants from `src/auth.rs` (the source writes
them in hex; the values here are the same numbers in decimal). -/
def K256 : List Nat :=
  [1116352408, 1899447441, 3049323471, 3921009573, 961987163, 1508970993,
   2453635748, 2870763221, 3624381080, 310598401, 607225278, 1426881987,
   1925078388, 2162078206, 2614888103, 3248222580, 3835390401, 4022224774,
   264347078, 604807628, 770255983, 1249150122, 1555081692, 1996064986,
   2554220882, 2821834349, 2952996808, 3210313671, 3336571891, 3584528711,
   113926993, 338241895, 666307205, 773529912, 1294757372, 1396182291,
   1695183700, 1986661051, 2177026350, 2456956037, 2730485921, 2820302411,
   3259730800, 3345764771, 3516065817, 3600352804, 4094571909, 275423344,
   430227734, 506948616, 659060556, 883997877, 958139571, 1322822218,
   1537002063, 1747873779, 1955562222, 2024104815, 2227730452, 2361852424,
   2428436474, 2756734187, 3204031479, 3329325298]

/-- The initial hash state from `Sha256::new`. -/
def sha256_init : List Nat :=
  [1779033703, 3144134277, 1013904242, 2773480762,
   1359893119, 2600822924, 528734635, 1541459225]

/-- Big-endian bytes of `n`, `k` bytes wide (`u32/u64::to_be_bytes`). -/
def natToBeBytes (n : Nat) : Nat → List Nat
  | 0 => []
  | k + 1 => natToBeBytes (n >>> 8) k ++ [n % 256]

/-- `u32::from_be_bytes` over groups of four bytes (the first 16 words of `w`). -/
def bytesToWords : List Nat → List Nat
  | b0 :: b1 :: b2 :: b3 :: rest =>
      ((((b0 <<< 8) ||| b1) <<< 8 ||| b2) <<< 8 ||| b3) :: bytesToWords rest
  | _ => []

/-- Extend the 16-word schedule by `n` more words (`w[16..64]` of `compress`). -/
def sha256_extend (w : List Nat) : Nat → List Nat
  | 0 => w
  | n + 1 =>
      let i := w.length
      let wi := (small_sigma1 (w.getD (i - 2) 0) + w.getD (i - 7) 0
                  + small_sigma0 (w.getD (i - 15) 0) + w.getD (i - 16) 0) % 4294967296
      sha256_extend (w ++ [wi]) n

/-- One round of the `compress` main loop; the state is `[a,b,c,d,e,f,g,h]`. -/
def sha256_round (s : List Nat) (kw : Nat × Nat) : List Nat :=
  match s with
  | [a, b, c, d, e, f, g, h] =>
      let t1 := (h + big_sigma1 e + ch e f g + kw.1 + kw.2) % 4294967296
      let t2 := (big_sigma0 a + maj a b c) % 4294967296
      [(t1 + t2) % 4294967296, a, b, c, add32 d t1, e, f, g]
  | _ => s

/-- `Sha256::compress` from `src/auth.rs` over one 64-byte block. -/
def sha256_compress (state : List Nat) (block : List Nat) : List Nat :=
  let w := sha256_extend (bytesToWords (block.take 64)) 48
  let s := (K256.zip w).foldl sha256_round state
  List.zipWith add32 state s

/-- Merkle–Damgård padding performed by `Sha256::finalize`
(`0x80`, zeros to 56 mod 64, then the 64-bit big-endian bit length). -/
def sha256_pad (msg : List Nat) : List Nat :=
  let bitLen := (msg.length * 8) % 18446744073709551616
  msg ++ 0x80 :: List.replicate ((119 - msg.length % 64) % 64) 0 ++ natToBeBytes bitLen 8

/-- Split a byte list into 64-byte blocks. -/
def chunks64 (l : List Nat) : List (List Nat) :=
  if h : l = [] then []
  else
    l.take 64 :: chunks64 (l.drop 64)
termination_by l.length
decreasing_by
  simp only [List.length_drop]
  have : 0 < l.length := List.length_pos.mpr h
  omega

/-- `sha256` from `src/auth.rs`: hash a whole message to 32 bytes. -/
def sha256 (data : List Nat) : List Nat :=
  let finalState := (chunks64 (sha256_pad data)).foldl sha256_compress sha256_init
  (finalState.map (fun v => natToBeBytes v 4)).flatten

/-! ### Key records and the manager operations (`src/auth.rs`) -/

/-- `ApiKeyRecord` from `src/auth.rs` (the persisted record). -/
structure ApiKeyRecord where
  id : List Char
  label : Option (List Char)
  created_at : Nat
  expires_at : Option Nat
  revoked_at : Option Nat
  salt_hex : List Char
  hash_hex : List Char
  scopes : Option (List (List Char))
deriving DecidableEq, Repr

/-- `Verification` from `src/auth.rs`. -/
inductive Verification where
  | Valid (id : List Char) (label : Option (List Char))
      (expires_at : Option Nat) (scopes : Option (List (List Char)))
  | InvalidTokenFormat
  | NotFound
  | Revoked (revoked_at : Nat)
  | Expired (expired_at : Nat)
  | HashMismatch
deriving DecidableEq, Repr

/-- The key lookup (RAM cache falling back to the store) is modelled as a
single map from id to record: `cache_lookup(id).or_else(fetch_record(id))`,
with store errors already folded into `none` as the source does. -/
def KeyLookup := List Char → Option ApiKeyRecord

/-- The hash-checking tail of `AuthManager::verify` (everything after the
revocation and expiry gates). -/
def verify_hash (r : ApiKeyRecord) (secret_hex : List Char) : Verification :=
  match hex_decode r.salt_hex with
  | none => .HashMismatch
  | some salt =>
      match hex_decode secret_hex with
      | none => .InvalidTokenFormat
      | some secret_bytes =>
          let digest := sha256 (salt ++ secret_bytes)
          match hex_decode r.hash_hex with
          | some expected => if ct_eq digest expected then
                .Valid r.id r.label r.expires_at r.scopes
              else .HashMismatch
          | none => .HashMismatch

/-- `AuthManager::verify` from `src/auth.rs`, with the current epoch second
and the record lookup made explicit. -/
def verify (lookup : KeyLookup) (now : Nat) (token : List Char) : Verification :=
  match parse_token token with
  | none => .InvalidTokenFormat
  | some (id, secret_hex) =>
      match lookup id with
      | none => .NotFound
      | some r =>
          match r.revoked_at with
          | some ts => .Revoked ts
          | none =>
              match r.expires_at with
              | some exp => if exp ≤ now then .Expired exp else verify_hash r secret_hex
              | none => verify_hash r secret_hex

/-- `GeneratedKey` from `src/auth.rs`. -/
structure GeneratedKey where
  id : List Char
  token : List Char
  created_at : Nat
  expires_at : Option Nat
  label : Option (List Char)
  scopes : Option (List (List Char))
deriving DecidableEq, Repr

/-- The creation-policy environment read by `generate_key`
(`ROUTIIUM_KEYS_REQUIRE_EXPIRATION`, `ROUTIIUM_KEYS_ALLOW_NO_EXPIRATION`,
`ROUTIIUM_KEYS_DEFAULT_TTL_SECONDS`). -/
structure GenEnv where
  require_expiration : Bool
  allow_no_expiration : Bool
  default_ttl_seconds : Option Nat
deriving DecidableEq, Repr

/-- `uuid_hex` from `src/auth.rs`: `format!("{:032x}", u)` of a `u128`,
with the random UUID value passed in explicitly. -/
def uuid_hex (u : Nat) : List Char :=
  (List.range 32).reverse.map (fun i => hexDigit ((u >>> (4 * i)) % 16))

/-- `AuthManager::generate_key` from `src/auth.rs`.  The ambient inputs —
policy env, current epoch second `now`, the UUID draw `u`, the 32 random
secret bytes and 16 random salt bytes — are explicit parameters; the store
is a map and the updated map is returned.  `none` models the `Err` paths.
`saturating_add` on `u64` is modelled as `Nat` addition. -/
def generate_key (env : GenEnv) (store : KeyLookup) (now u : Nat)
    (secret_bytes salt : List Nat) (label : Option (List Char))
    (ttl : Option Nat) (scopes : Option (List (List Char))) :
    Option (GeneratedKey × ApiKeyRecord × KeyLookup) :=
  let created_at := now
  let ttl_eff := match ttl with
    | some d => some d
    | none => env.default_ttl_seconds
  if env.require_expiration && ttl_eff.isNone && !env.allow_no_expiration then none
  else if (match ttl_eff with | some d => d == 0 | none => false) then none
  else
    let id := uuid_hex u
    let expires_at := ttl_eff.map (fun d => created_at + d)
    let secret_hex := hex_encode secret_bytes
    let salt_hex := hex_encode salt
    match hex_decode secret_hex with
    | none => none
    | some sbytes =>
        let digest := sha256 (salt ++ sbytes)
        let hash_hex := hex_encode digest
        let r : ApiKeyRecord :=
          ⟨id, label, created_at, expires_at, none, salt_hex, hash_hex, scopes⟩
        let store' : KeyLookup := fun i => if i = id then some r else store i
        some (⟨id, "sk_".toList ++ id ++ '.' :: secret_hex,
               created_at, expires_at, label, scopes⟩, r, store')

/-- `AuthManager::revoke` from `src/auth.rs`: set `revoked_at` only when unset. -/
def revoke (store : KeyLookup) (now : Nat) (id : List Char) : Bool × KeyLookup :=
  match store id with
  | some r =>
      if r.revoked_at = none then
        let r' := { r with revoked_at := some now }
        (true, fun i => if i = id then some r' else store i)
      else (false, store)
  | none => (false, store)

/-- `AuthManager::set_expiration` from `src/auth.rs`: overwrite `expires_at`
unconditionally when the record exists. -/
def set_expiration (store : KeyLookup) (id : List Char) (expires_at : Option Nat) :
    Bool × KeyLookup :=
  match store id with
  | some r =>
      let r' := { r with expires_at := expires_at }
      (true, fun i => if i = id then some r' else store i)
  | none => (false, store)

/-- One mutating `AuthManager` operation, with its ambient inputs. -/
inductive AuthOp where
  | gen (env : GenEnv) (now u : Nat) (secret_bytes salt : List Nat)
      (label : Option (List Char)) (ttl : Option Nat) (scopes : Option (List (List Char)))
  | rev (now : Nat) (id : List Char)
  | setExp (id : List Char) (expires_at : Option Nat)

/-- Apply one operation to the store (a failed `generate_key` stores nothing). -/
def applyOp (store : KeyLookup) : AuthOp → KeyLookup
  | .gen env now u sb salt label ttl scopes =>
      match generate_key env store now u sb salt label ttl scopes with
      | some (_, _, s') => s'
      | none => store
  | .rev now id => (revoke store now id).2
  | .setExp id e => (set_expiration store id e).2

/-- Run a list of operations from a store. -/
def runOps (store : KeyLookup) (ops : List AuthOp) : KeyLookup :=
  ops.foldl applyOp store

/-- The empty store. -/
def emptyStore : KeyLookup := fun _ => none

/-- Freshness of a `gen` operation's UUID with respect to a store: the spec
guarantees ids are never reused, so a generation never lands on an id that
is already present. -/
def opFresh (store : KeyLookup) : AuthOp → Prop
  | .gen _ _ u _ _ _ _ _ => store (uuid_hex u) = none
  | _ => True

/-- All generations along a run are fresh. -/
def freshRun (store : KeyLookup) : List AuthOp → Prop
  | [] => True
  | op :: rest => opFresh store op ∧ freshRun (applyOp store op) rest

end Auth

namespace Models

/-- Modelled from the spec: usage block of a Responses payload
(`models::responses::ResponsesUsage`; the `models` module is not among the
provided sources).  Fields as used by `src/conversion.rs`. -/
structure ResponsesUsage where
  input_tokens : Nat
  output_tokens : Nat
  total_tokens : Nat
  reasoning_tokens : Option Nat
  cached_tokens : Option Nat
deriving DecidableEq, Repr

/-- Modelled from the spec: one item of a Responses `output` array
(`models::responses::OutputItem`, not among the provided sources).  The
variants and fields are the ones matched by `src/conversion.rs`;
`FunctionCallOutput`'s further fields and all other item kinds are
abstracted (`Other`). -/
inductive OutputItem where
  | AssistantMessage (id : String) (content : String)
  | ToolCall (id : String) (name : String) (arguments : String) (call_id : String)
  | FunctionCallOutput (content : String)
  | Other (code : Nat)
deriving DecidableEq, Repr

/-- Modelled from the spec: a Responses streaming chunk
(`models::responses::ResponsesChunk`, not among the provided sources),
with the fields read by `responses_chunk_to_chat_chunk`. -/
structure ResponsesChunk where
  id : String
  created : Nat
  model : String
  output_text_delta : Option String
  output_deltas : Option (List OutputItem)
  usage : Option ResponsesUsage
deriving DecidableEq, Repr

/-- Modelled from the spec: a non-streaming Responses response
(`models::responses::ResponsesResponse`, not among the provided sources),
with the fields read and written by `src/conversion.rs`. -/
structure ResponsesResponse where
  id : String
  object : String
  created : Nat
  model : String
  output_text : Option String
  output : List OutputItem
  usage : Option ResponsesUsage
  system_fingerprint : Option String
deriving DecidableEq, Repr

/-- Modelled from the spec: `models::chat::FunctionCall`. -/
structure FunctionCall where
  name : String
  arguments : String
deriving DecidableEq, Repr

/-- Modelled from the spec: `models::chat::ToolCall`
(`id`, `type` (serialised name of `call_type`), `function`). -/
structure ToolCall where
  id : String
  call_type : String
  function : FunctionCall
deriving DecidableEq, Repr

/-- Modelled from the spec: `models::chat::ChatUsage`. -/
structure ChatUsage where
  prompt_tokens : Nat
  completion_tokens : Nat
  total_tokens : Nat
  reasoning_tokens : Option Nat
  cached_tokens : Option Nat
deriving DecidableEq, Repr

/-- Modelled from the spec: `models::chat::ChatResponseMessage`. -/
structure ChatResponseMessage where
  role : String
  content : Option String
  tool_calls : Option (List ToolCall)
  function_call : Option FunctionCall
deriving DecidableEq, Repr

/-- Modelled from the spec: `models::chat::ChatChoice` (logprobs is always
`None` in the embedded converters and is modelled as an opaque option). -/
structure ChatChoice where
  index : Nat
  message : ChatResponseMessage
  finish_reason : Option String
  logprobs : Option Nat
deriving DecidableEq, Repr

/-- Modelled from the spec: `models::chat::ChatCompletionResponse`. -/
structure ChatCompletionResponse where
  id : String
  object : String
  created : Nat
  model : String
  choices : List ChatChoice
  usage : Option ChatUsage
  system_fingerprint : Option String
deriving DecidableEq, Repr

/-- Modelled from the spec: `models::chat::FunctionCallDelta`. -/
structure FunctionCallDelta where
  name : Option String
  arguments : Option String
deriving DecidableEq, Repr

/-- Modelled from the spec: `models::chat::ToolCallDelta`. -/
structure ToolCallDelta where
  index : Nat
  id : Option String
  call_type : Option String
  function : Option FunctionCallDelta
deriving DecidableEq, Repr

/-- Modelled from the spec: `models::chat::ChatDelta`. -/
structure ChatDelta where
  role : Option String
  content : Option String
  tool_calls : Option (List ToolCallDelta)
deriving DecidableEq, Repr

/-- Modelled from the spec: `models::chat::ChatStreamChoice`. -/
structure ChatStreamChoice where
  index : Nat
  delta : ChatDelta
  finish_reason : Option String
deriving DecidableEq, Repr

/-- Modelled from the spec: `models::chat::ChatCompletionChunk`. -/
structure ChatCompletionChunk where
  id : String
  object : String
  created : Nat
  model : String
  choices : List ChatStreamChoice
  usage : Option ChatUsage
deriving DecidableEq, Repr

end Models

namespace Conversion

open Models

/-- Usage translation done by `src/conversion.rs`
(`input_tokens → prompt_tokens`, `output_tokens → completion_tokens`,
`reasoning`/`cached` preserved). -/
def usageToChat (u : ResponsesUsage) : ChatUsage :=
  ⟨u.input_tokens, u.output_tokens, u.total_tokens, u.reasoning_tokens, u.cached_tokens⟩

/-- The loop of `responses_chunk_to_chat_chunk` over `output_deltas`
(items are enumerated; tool calls are pushed in order; the first
text-bearing item fills a missing `delta_content`). -/
def chunkDeltasLoop : List (Nat × OutputItem) → Option String → List ToolCallDelta →
    Option String × List ToolCallDelta
  | [], content, deltas => (content, deltas)
  | (idx, item) :: rest, content, deltas =>
      match item with
      | .ToolCall _ name arguments call_id =>
          chunkDeltasLoop rest content
            (deltas ++ [⟨idx, some call_id, some "function", some ⟨some name, some arguments⟩⟩])
      | .AssistantMessage _ c =>
          chunkDeltasLoop rest (if content.isNone then some c else content) deltas
      | .FunctionCallOutput c =>
          chunkDeltasLoop rest (if content.isNone then some c else content) deltas
      | .Other _ => chunkDeltasLoop rest content deltas

/-- `responses_chunk_to_chat_chunk` from `src/conversion.rs`. -/
def responses_chunk_to_chat_chunk (c : ResponsesChunk) (is_first : Bool) :
    ChatCompletionChunk :=
  let start : Option String := c.output_text_delta
  let (delta_content, tool_call_deltas) :=
    match c.output_deltas with
    | some items => chunkDeltasLoop items.enum start []
    | none => (start, [])
  let delta : ChatDelta :=
    ⟨if is_first then some "assistant" else none,
     delta_content,
     if tool_call_deltas.isEmpty then none else some tool_call_deltas⟩
  ⟨c.id, "chat.completion.chunk", c.created, c.model,
   [⟨0, delta, none⟩], c.usage.map usageToChat⟩

end Conversion

namespace Sse

open Models

/-- The serde boundary of the SSE converter, abstracted:
`parseChunk` stands for `serde_json::from_slice::<ResponsesChunk>` and
`chunkToBytes` for `serde_json::to_vec` of the converted chat chunk. -/
structure SseEnv where
  parseChunk : List Nat → Option ResponsesChunk
  chunkToBytes : ChatCompletionChunk → Option (List Nat)

/-- `u8::is_ascii_whitespace`. -/
def isAsciiWsByte (b : Nat) : Bool :=
  b == 32 || b == 9 || b == 10 || b == 12 || b == 13

/-- `trim_ascii` from `src/server.rs`. -/
def trim_ascii (bytes : List Nat) : List Nat :=
  ((bytes.dropWhile isAsciiWsByte).reverse.dropWhile isAsciiWsByte).reverse

/-- Byte position of the first `\n\n` window (`buffer.windows(2).position`). -/
def find2nl : List Nat → Option Nat
  | [] => none
  | [_] => none
  | a :: b :: rest =>
      if a = 10 ∧ b = 10 then some 0
      else (find2nl (b :: rest)).map (· + 1)

/-- The bytes of `"data:"`. -/
def dataColon : List Nat := [100, 97, 116, 97, 58]

/-- The bytes of `"data: "`. -/
def dataColonSp : List Nat := dataColon ++ [32]

/-- The bytes of `"[DONE]"`. -/
def doneBytes : List Nat := [91, 68, 79, 78, 69, 93]

/-- `line.strip_suffix(b"\r")`. -/
def stripCr (l : List Nat) : List Nat :=
  if l.getLast? = some 13 then l.dropLast else l

/-- The line-classification loop of `next_event`: returns
`(other_lines, data_segments)` in order of appearance. -/
def classifyLines : List (List Nat) → List (List Nat) × List (List Nat)
  | [] => ([], [])
  | line :: rest =>
      let line := stripCr line
      let (others, datas) := classifyLines rest
      if line.take 5 = dataColon then
        let payload := trim_ascii (line.drop 5)
        if payload = [] then (others, datas) else (others, payload :: datas)
      else if line = [] then (others, datas)
      else (line :: others, datas)

/-- Re-emission of the retained non-`data:` lines, each followed by `\n`. -/
def outLines (others : List (List Nat)) : List Nat :=
  (others.map (· ++ [10])).flatten

/-- The `data_segments` of an event (the event including its `\n\n`
terminator), as collected by `next_event`. -/
def dataSegments (event_full : List Nat) : List (List Nat) :=
  (classifyLines ((event_full.take (event_full.length - 2)).splitOn 10)).2

/-- The retained non-`data:` lines of an event. -/
def otherLines (event_full : List Nat) : List (List Nat) :=
  (classifyLines ((event_full.take (event_full.length - 2)).splitOn 10)).1

/-- The joined data payload of an event (`data_segments.join(&b'\n')`). -/
def dataPayload (event_full : List Nat) : List Nat :=
  List.intercalate [10] (dataSegments event_full)

/-- Processing of one complete event (the body of `next_event` after the
event has been drained from the buffer): returns the emitted bytes and the
updated `is_first_chunk` flag. -/
def processEvent (env : SseEnv) (event_full : List Nat) (is_first : Bool) :
    List Nat × Bool :=
  if dataSegments event_full = [] then (event_full, is_first)
  else if trim_ascii (dataPayload event_full) = doneBytes then
    (outLines (otherLines event_full) ++ dataColonSp ++ doneBytes ++ [10, 10], is_first)
  else
    match env.parseChunk (dataPayload event_full) with
    | some chunk =>
        let chat_chunk := Conversion.responses_chunk_to_chat_chunk chunk is_first
        (match env.chunkToBytes chat_chunk with
         | some json => (outLines (otherLines event_full) ++ dataColonSp ++ json ++ [10, 10], false)
         | none => (event_full, false))
    | none => (event_full, is_first)

/-- `ResponsesSseToChatSse::next_event` from `src/server.rs`: drain the
first complete event from the buffer and process it. -/
def next_event (env : SseEnv) (buffer : List Nat) (is_first : Bool) :
    Option (List Nat × List Nat × Bool) :=
  match find2nl buffer with
  | none => none
  | some pos =>
      let (out, fst') := processEvent env (buffer.take (pos + 2)) is_first
      some (out, buffer.drop (pos + 2), fst')

/-- Whether an event's payload parses as a Responses chunk (so the event
is translated rather than forwarded). -/
def eventParses (env : SseEnv) (event_full : List Nat) : Bool :=
  !(dataSegments event_full).isEmpty
    && !(trim_ascii (dataPayload event_full) == doneBytes)
    && (env.parseChunk (dataPayload event_full)).isSome

/-- Drain complete events from the buffer by repeated `next_event`, with
explicit fuel (each drained event consumes at least one buffered byte, so
`buffer.length` fuel always suffices). -/
def drainFuel (env : SseEnv) : Nat → List Nat → Bool → List (List Nat) × List Nat × Bool
  | 0, buf, fst => ([], buf, fst)
  | fuel + 1, buf, fst =>
      match next_event env buf fst with
      | none => ([], buf, fst)
      | some (ev, rest, fst') =>
          let r := drainFuel env fuel rest fst'
          (ev :: r.1, r.2.1, r.2.2)

/-- Drain every complete event currently in the buffer (the inner loop of
`poll_next`). -/
def drainEvents (env : SseEnv) (buf : List Nat) (fst : Bool) :
    List (List Nat) × List Nat × Bool :=
  drainFuel env buf.length buf fst

/-- `ResponsesSseToChatSse::poll_next` from `src/server.rs`, run to
completion over the list of upstream byte chunks: drain buffered events,
pull the next chunk into the buffer, and at end of input flush any
non-empty remainder as-is. -/
def pollRun (env : SseEnv) : List (List Nat) → List Nat → Bool → List (List Nat)
  | [], buf, fst =>
      let r := drainEvents env buf fst
      r.1 ++ (if r.2.1 = [] then [] else [r.2.1])
  | c :: cs, buf, fst =>
      let r := drainEvents env buf fst
      r.1 ++ pollRun env cs (r.2.1 ++ c) r.2.2

/-- The whole stream converter: initial state has an empty buffer and
`is_first_chunk = true`. -/
def runConverter (env : SseEnv) (chunks : List (List Nat)) : List (List Nat) :=
  pollRun env chunks [] true

/-- Specification-side splitter: cut a byte stream at each first `\n\n`
into complete events (terminator included) and a final remainder, with
explicit fuel. -/
def splitFuel : Nat → List Nat → List (List Nat) × List Nat
  | 0, l => ([], l)
  | fuel + 1, l =>
      match find2nl l with
      | none => ([], l)
      | some pos =>
          let r := splitFuel fuel (l.drop (pos + 2))
          (l.take (pos + 2) :: r.1, r.2)

/-- The complete events and remainder of a byte stream. -/
def splitEvents (l : List Nat) : List (List Nat) × List Nat :=
  splitFuel l.length l

/-- Process a list of complete events in order, threading the
`is_first_chunk` flag; returns the outputs and the final flag. -/
def mapEvents (env : SseEnv) : List (List Nat) → Bool → List (List Nat) × Bool
  | [], fst => ([], fst)
  | e :: es, fst =>
      let (o, f') := processEvent env e fst
      let r := mapEvents env es f'
      (o :: r.1, r.2)

end Sse

namespace RouterClient

/-- `UpstreamMode` from `src/router_client.rs` / `src/routing_config.rs`. -/
inductive UpstreamMode where
  | Responses
  | Chat
  | Bedrock
deriving DecidableEq, Repr

/-- `CacheControl` from `src/router_client.rs`. -/
structure CacheControl where
  ttl_ms : Nat
  etag : Option String
  valid_until : Option String
  freeze_key : Option String
deriving DecidableEq, Repr

/-- `UpstreamConfig` from `src/router_client.rs` (headers as a key-value list). -/
structure UpstreamConfig where
  base_url : String
  mode : UpstreamMode
  model_id : String
  auth_env : Option String
  headers : Option (List (String × String))
deriving DecidableEq, Repr

/-- `RoutePlan` from `src/router_client.rs`, restricted to the fields the
decision cache reads (`cache`, `policy_rev`) plus the identifying
`route_id`/`upstream`; limits, hints, fallbacks, overlays and stickiness
are never touched by `RouterCache` and are left out. -/
structure RoutePlan where
  route_id : String
  upstream : UpstreamConfig
  cache : Option CacheControl
  policy_rev : Option String
deriving DecidableEq, Repr

/-- `RouteRequest` from `src/router_client.rs`, restricted to the fields
`RouterCache::cache_key` reads. -/
structure RouteRequest where
  «alias» : String
  api : String
  stream : Bool
  caps : List String
  plan_token : Option String
deriving DecidableEq, Repr

/-- `CachedPlan` from `src/router_client.rs`; `Instant` is modelled as a
`Nat` millisecond clock. -/
structure CachedPlan where
  plan : RoutePlan
  expires_at : Nat
deriving DecidableEq, Repr

/-- The map inside `RouterCache` (a `HashMap<String, CachedPlan>`). -/
def CacheMap := String → Option CachedPlan

/-- `RouterCache::cache_key` from `src/router_client.rs`. -/
def cache_key (req : RouteRequest) : String :=
  let parts := [req.«alias», req.api, if req.stream then "true" else "false",
                String.intercalate "," req.caps]
  let parts := match req.plan_token with
    | some token => parts ++ [token]
    | none => parts
  String.intercalate "|" parts

/-- Remove a key from the cache map. -/
def cacheRemove (key : String) (m : CacheMap) : CacheMap :=
  fun k => if k = key then none else m k

/-- `RouterCache::get` from `src/router_client.rs`: return the plan only if
now is before expiry and, when both the caller's and the entry's policy
revisions are known, they agree; a revision mismatch or an expired entry
removes the entry.  Returns the (possibly updated) map alongside. -/
def RouterCache.get (m : CacheMap) (now : Nat) (req : RouteRequest)
    (policy_rev : Option String) : Option RoutePlan × CacheMap :=
  let key := cache_key req
  match m key with
  | none => (none, m)
  | some cached =>
      if now < cached.expires_at then
        match policy_rev, cached.plan.policy_rev with
        | some rev, some cached_rev =>
            if cached_rev ≠ rev then (none, cacheRemove key m)
            else (some cached.plan, m)
        | _, _ => (some cached.plan, m)
      else (none, cacheRemove key m)

/-- The TTL `RouterCache::put` applies to a plan: the plan's own
`cache.ttl_ms` when the plan carries cache control, else the configured
default. -/
def putTtl (default_ttl_ms : Nat) (plan : RoutePlan) : Nat :=
  match plan.cache with
  | some c => c.ttl_ms
  | none => default_ttl_ms

/-- `RouterCache::put` from `src/router_client.rs`. -/
def RouterCache.put (m : CacheMap) (default_ttl_ms now : Nat) (req : RouteRequest)
    (plan : RoutePlan) : CacheMap :=
  let key := cache_key req
  let expires_at := now + putTtl default_ttl_ms plan
  fun k => if k = key then some ⟨plan, expires_at⟩ else m k

end RouterClient

namespace Routing

open RouterClient (UpstreamMode)

/-- JSON values as stored by the transform engine.  `serde_json::Value` is
abstracted: strings are carried; numbers built from an `f32`
(`override_temperature`) keep their bit pattern opaquely; numbers built
from a `u32` (`override_max_tokens`) keep the integer; every other JSON
value is an opaque code.  `apply_transform` only ever stores and deletes
values, never computes with them. -/
inductive JsonValue where
  | vstring (s : List Char)
  | vf32 (bits : Nat)
  | vu32 (n : Nat)
  | vother (code : Nat)
deriving DecidableEq, Repr

/-- A JSON object, modelled by its key lookup (`serde_json::Map`). -/
def JsonMap := List Char → Option JsonValue

/-- `serde_json::Value` as seen by `apply_transform`: either an object or
some other value (on which `as_object_mut` fails and every step is a
no-op). -/
inductive BodyValue where
  | obj (m : JsonMap)
  | nonObject (code : Nat)

/-- `Map::insert`. -/
def mapInsert (k : List Char) (v : JsonValue) (m : JsonMap) : JsonMap :=
  fun k' => if k' = k then some v else m k'

/-- `Map::remove`. -/
def mapRemove (k : List Char) (m : JsonMap) : JsonMap :=
  fun k' => if k' = k then none else m k'

/-- Lookup into a body (an object's key, else nothing). -/
def BodyValue.get (b : BodyValue) (k : List Char) : Option JsonValue :=
  match b with
  | .obj m => m k
  | .nonObject _ => none

/-- `RequestTransform` from `src/routing_config.rs`.  `add_parameters` is a
`HashMap`, modelled as its key-value list in some iteration order. -/
structure RequestTransform where
  rewrite_model : Option (List Char)
  add_parameters : Option (List (List Char × JsonValue))
  remove_parameters : Option (List (List Char))
  override_temperature : Option Nat
  override_max_tokens : Option Nat
deriving Repr

/-- Apply one step to the body iff it is an object (`as_object_mut`). -/
def onObject (f : JsonMap → JsonMap) : BodyValue → BodyValue
  | .obj m => .obj (f m)
  | .nonObject c => .nonObject c

/-- `RoutingRule::apply_transform` from `src/routing_config.rs`: the five
steps in program order (`rewrite_model`, `add_parameters`,
`remove_parameters`, `override_temperature`, `override_max_tokens`). -/
def apply_transform (transform : Option RequestTransform) (body : BodyValue) : BodyValue :=
  match transform with
  | none => body
  | some t =>
      let body := match t.rewrite_model with
        | some new_model => onObject (mapInsert "model".toList (.vstring new_model)) body
        | none => body
      let body := match t.add_parameters with
        | some params => onObject (fun m => params.foldl (fun m kv => mapInsert kv.1 kv.2 m) m) body
        | none => body
      let body := match t.remove_parameters with
        | some keys => onObject (fun m => keys.foldl (fun m k => mapRemove k m) m) body
        | none => body
      let body := match t.override_temperature with
        | some temp => onObject (mapInsert "temperature".toList (.vf32 temp)) body
        | none => body
      let body := match t.override_max_tokens with
        | some max_tok => onObject (mapInsert "max_tokens".toList (.vu32 max_tok)) body
        | none => body
      body

/-- `MatchStrategy` from `src/routing_config.rs`. -/
inductive MatchStrategy where
  | Exact (model : List Char)
  | PrefixMatch (p : List Char)
  | Regex (pattern : List Char)
  | Glob (pattern : List Char)
  | Any
deriving Repr

/-- `LoadBalanceStrategy` from `src/routing_config.rs`. -/
inductive LoadBalanceStrategy where
  | First
  | RoundRobin
  | Random
  | Weighted
deriving DecidableEq, Repr

/-- `BackendConfig` from `src/routing_config.rs`. -/
structure BackendConfig where
  base_url : List Char
  key_env : Option (List Char)
  mode : UpstreamMode
  weight : Nat
  timeout_seconds : Option Nat
  health_check_url : Option (List Char)
deriving DecidableEq, Repr

/-- `RoutingRule` from `src/routing_config.rs`.  The compiled regex is
modelled as an opaque match predicate (`regex::Regex::is_match`); the
round-robin counter is passed to `select_backend` explicitly. -/
structure RoutingRule where
  id : List Char
  description : Option (List Char)
  match_strategy : MatchStrategy
  backends : List BackendConfig
  load_balance : LoadBalanceStrategy
  priority : Int
  transform : Option RequestTransform
  enabled : Bool
  regex_pattern : Option (List Char → Bool)

/-- Find the first occurrence of `part` in `text` (`str::find`). -/
def findSub (text part : List Char) : Option Nat :=
  match text with
  | [] => if part = [] then some 0 else none
  | _ :: rest =>
      if part.isPrefixOf text then some 0
      else (findSub rest part).map (· + 1)

/-- The middle/last-part loop of `glob_match` (walk the non-wildcard parts
left to right, searching each from the current cursor; the last part must
also be a suffix of the text). -/
def globParts (text : List Char) (text_pos : Nat) : List (Nat × List Char) → Nat → Bool
  | [], _ => true
  | (i, part) :: rest, total =>
      if part = [] then globParts text text_pos rest total
      else if i = 0 then
        if part.isPrefixOf text then globParts text part.length rest total else false
      else if i = total - 1 then
        if ¬ part.isSuffixOf text then false
        else match findSub (text.drop text_pos) part with
          | some pos => globParts text (text_pos + pos + part.length) rest total
          | none => false
      else
        match findSub (text.drop text_pos) part with
        | some pos => globParts text (text_pos + pos + part.length) rest total
        | none => false

/-- `glob_match` from `src/routing_config.rs` (splits the pattern on `*`;
a pattern without `*` requires exact equality). -/
def glob_match (pattern text : List Char) : Bool :=
  let pattern_parts := pattern.splitOn '*'
  if pattern_parts.length = 1 then pattern == text
  else globParts text 0 pattern_parts.enum pattern_parts.length

/-- `RoutingRule::matches` from `src/routing_config.rs`. -/
def RoutingRule.matches (r : RoutingRule) (model : List Char) : Bool :=
  if !r.enabled then false
  else match r.match_strategy with
    | .Exact target => model == target
    | .PrefixMatch p => p.isPrefixOf model
    | .Regex _ => match r.regex_pattern with
        | some re => re model
        | none => false
    | .Glob pattern => glob_match pattern model
    | .Any => true

/-- The weighted walk of `select_backend` (subtract weights until the draw
falls inside a backend). -/
def weightedWalk : List BackendConfig → Nat → Option BackendConfig
  | [], _ => none
  | b :: rest, v => if v < b.weight then some b else weightedWalk rest (v - b.weight)

/-- `RoutingRule::select_backend` from `src/routing_config.rs`.  The
relaxed atomic round-robin counter and the random draws are explicit:
`counter` is the fetched counter value, `rng` the uniform draw (the
`f64`-scaled weighted draw lands uniformly in `[0, total)` and is modelled
as `rng % total`). -/
def select_backend (r : RoutingRule) (counter rng : Nat) : Option BackendConfig :=
  if r.backends.isEmpty then none
  else match r.load_balance with
    | .First => r.backends.head?
    | .RoundRobin => r.backends.get? (counter % r.backends.length)
    | .Random => r.backends.get? (rng % r.backends.length)
    | .Weighted =>
        let total := (r.backends.map (·.weight)).sum
        if total = 0 then r.backends.head?
        else match weightedWalk r.backends (rng % total) with
          | some b => some b
          | none => r.backends.getLast?

/-- `ModelAlias` from `src/routing_config.rs`. -/
structure ModelAlias where
  «alias» : List Char
  target : List Char
  description : Option (List Char)
  enabled : Bool
deriving DecidableEq, Repr

/-- `DefaultBackend` from `src/routing_config.rs`. -/
structure DefaultBackend where
  base_url : List Char
  key_env : Option (List Char)
  mode : UpstreamMode
deriving DecidableEq, Repr

/-- `RoutingConfig` from `src/routing_config.rs` (rules already sorted by
priority at load time; resolution only relies on the stored order). -/
structure RoutingConfig where
  aliases : List ModelAlias
  rules : List RoutingRule
  default_backend : Option DefaultBackend
  allow_passthrough : Bool

/-- `RoutingConfig::resolve_alias` from `src/routing_config.rs`: first
enabled alias wins, otherwise the model passes through. -/
def resolve_alias (cfg : RoutingConfig) (model : List Char) : List Char :=
  match cfg.aliases.find? (fun a => a.enabled && a.«alias» == model) with
  | some a => a.target
  | none => model

/-- `RoutingConfig::find_rule` from `src/routing_config.rs` (resolves the
alias again and scans rules in stored order). -/
def find_rule (cfg : RoutingConfig) (model : List Char) : Option RoutingRule :=
  let resolved_model := resolve_alias cfg model
  cfg.rules.find? (fun rule => rule.matches resolved_model)

/-- `ResolvedRoute` from `src/routing_config.rs`. -/
structure ResolvedRoute where
  base_url : List Char
  key_env : Option (List Char)
  mode : UpstreamMode
  timeout_seconds : Option Nat
  rule_id : Option (List Char)
deriving DecidableEq, Repr

/-- `RoutingConfig::resolve_route` from `src/routing_config.rs`.
`env_base` models the `OPENAI_API_BASE` environment variable; `counter`
and `rng` feed `select_backend`.  `none` models the
`"No routing rule found for model"` error. -/
def resolve_route (cfg : RoutingConfig) (env_base : Option (List Char))
    (counter rng : Nat) (model : List Char) : Option ResolvedRoute :=
  let resolved_model := resolve_alias cfg model
  let fromRule : Option ResolvedRoute :=
    match find_rule cfg resolved_model with
    | some rule =>
        match select_backend rule counter rng with
        | some backend =>
            some ⟨backend.base_url, backend.key_env, backend.mode,
                  backend.timeout_seconds, some rule.id⟩
        | none => none
    | none => none
  match fromRule with
  | some route => some route
  | none =>
      match cfg.default_backend with
      | some dflt => some ⟨dflt.base_url, dflt.key_env, dflt.mode, none, none⟩
      | none =>
          if !cfg.allow_passthrough then none
          else
            some ⟨(match env_base with
                   | some b => b
                   | none => "https://api.openai.com/v1".toList),
                  some "OPENAI_API_KEY".toList, .Responses, none, none⟩

end Routing

namespace Conversion

open Models

/-- The `max_output_tokens` computation inside `to_responses_request`
(`src/conversion.rs`): prefer `max_completion_tokens` over `max_tokens`,
then raise any present value below 16 to 16. -/
def to_responses_request_max_output_tokens
    (max_completion_tokens max_tokens : Option Nat) : Option Nat :=
  let max_output_tokens := match max_completion_tokens with
    | some v => some v
    | none => max_tokens
  match max_output_tokens with
  | some v => if v < 16 then some 16 else some v
  | none => max_output_tokens

/-- The primary-text extraction loop of `responses_to_chat_response`
(text-bearing items collected in order). -/
def collectTextParts : List OutputItem → List String
  | [] => []
  | .AssistantMessage _ text :: rest =>
      if text ≠ "" then text :: collectTextParts rest else collectTextParts rest
  | .FunctionCallOutput text :: rest =>
      if text ≠ "" then text :: collectTextParts rest else collectTextParts rest
  | _ :: rest => collectTextParts rest

/-- The tool-call collection loop of `responses_to_chat_response`. -/
def collectToolCalls : List OutputItem → List ToolCall
  | [] => []
  | .ToolCall _ name arguments call_id :: rest =>
      ⟨call_id, "function", ⟨name, arguments⟩⟩ :: collectToolCalls rest
  | _ :: rest => collectToolCalls rest

/-- `responses_to_chat_response` from `src/conversion.rs`. -/
def responses_to_chat_response (rr : ResponsesResponse) : ChatCompletionResponse :=
  let content₀ : Option String :=
    match rr.output_text with
    | some t => some t
    | none =>
        let text_parts := collectTextParts rr.output
        if !text_parts.isEmpty then some (String.intercalate "\n" text_parts) else none
  let tool_calls := collectToolCalls rr.output
  let finish_reason := if tool_calls.isEmpty then "stop" else "tool_calls"
  let content :=
    match content₀ with
    | none => if !tool_calls.isEmpty then none else some ""
    | some c => some c
  let message : ChatResponseMessage :=
    ⟨"assistant", content,
     if tool_calls.isEmpty then none else some tool_calls, none⟩
  let choice : ChatChoice := ⟨0, message, some finish_reason, none⟩
  ⟨rr.id, "chat.completion", rr.created, rr.model, [choice],
   rr.usage.map (fun u =>
     ⟨u.input_tokens, u.output_tokens, u.total_tokens, u.reasoning_tokens, u.cached_tokens⟩),
   rr.system_fingerprint⟩

end Conversion

namespace Bedrock

open Models

/-- `serde_json::Value` as read by `bedrock_anthropic_to_chat`.  Object
fields are a key-value list (serde maps have unique keys); JSON numbers
are modelled as the unsigned integers the function reads through
`as_u64` (non-integral numbers never reach the embedded code paths). -/
inductive Json where
  | null
  | jbool (b : Bool)
  | num (n : Nat)
  | str (s : String)
  | arr (xs : List Json)
  | obj (fields : List (String × Json))

/-- `Value::get` on an object (serde `Map::get`). -/
def Json.get (v : Json) (key : String) : Option Json :=
  match v with
  | .obj fields => (fields.find? (fun kv => kv.1 == key)).map (·.2)
  | _ => none

/-- `Value::as_str`. -/
def Json.as_str : Json → Option String
  | .str s => some s
  | _ => none

/-- `Value::as_array`. -/
def Json.as_array : Json → Option (List Json)
  | .arr xs => some xs
  | _ => none

/-- `Value::as_u64`. -/
def Json.as_u64 : Json → Option Nat
  | .num n => some n
  | _ => none

/-- Stands for `serde_json::to_string` of a tool input (an external
serde_json behaviour; the claims never inspect the produced text, so
string escaping inside values is not reproduced). -/
def json_to_string : Json → String
  | .null => "null"
  | .jbool true => "true"
  | .jbool false => "false"
  | .num n => toString n
  | .str s => "\"" ++ s ++ "\""
  | .arr xs =>
      "[" ++ String.intercalate ","
        (xs.attach.map (fun ⟨x, _⟩ => json_to_string x)) ++ "]"
  | .obj fields =>
      "\x7b" ++ String.intercalate ","
        (fields.attach.map (fun ⟨kv, _⟩ => "\"" ++ kv.1 ++ "\":" ++ json_to_string kv.2))
      ++ "\x7d"
decreasing_by
  · have := List.sizeOf_lt_of_mem (by assumption : x ∈ xs)
    simp only [Json.arr.sizeOf_spec]
    omega
  · have h1 := List.sizeOf_lt_of_mem (by assumption : kv ∈ fields)
    have h2 : sizeOf kv.2 < sizeOf kv := by
      obtain ⟨k, v⟩ := kv
      simp only [Prod.mk.sizeOf_spec]
      omega
    simp only [Json.obj.sizeOf_spec]
    omega

/-- State of the content-array loop of `bedrock_anthropic_to_chat`:
accumulated text, collected tool calls, current finish reason. -/
structure AnthropicAcc where
  content_text : String
  tool_calls : List ToolCall
  finish_reason : String

/-- One step of the content-array loop of `bedrock_anthropic_to_chat`. -/
def anthropicContentStep (acc : AnthropicAcc) (item : Json) : AnthropicAcc :=
  match item.get "type" |>.bind Json.as_str with
  | some "text" =>
      match item.get "text" |>.bind Json.as_str with
      | some text =>
          { acc with content_text :=
              if acc.content_text ≠ "" then acc.content_text ++ "\n" ++ text
              else acc.content_text ++ text }
      | none => acc
  | some "tool_use" =>
      match item.get "id" |>.bind Json.as_str,
            item.get "name" |>.bind Json.as_str,
            item.get "input" with
      | some id, some name, some input =>
          { acc with
            tool_calls := acc.tool_calls ++ [⟨id, "function", ⟨name, json_to_string input⟩⟩],
            finish_reason := "tool_calls" }
      | _, _, _ => acc
  | _ => acc

/-- The stop-reason translation applied by `bedrock_anthropic_to_chat`. -/
def anthropicStopReason (stop_reason : String) : String :=
  if stop_reason = "end_turn" then "stop"
  else if stop_reason = "max_tokens" then "length"
  else if stop_reason = "tool_use" then "tool_calls"
  else stop_reason

/-- `bedrock_anthropic_to_chat` from `src/bedrock.rs`.  `model` is the
Bedrock model id; `request_id` and, when it is absent, the fresh
`chatcmpl-<uuid>` string and the current epoch second are explicit
parameters (`uuid::Uuid::new_v4`, `SystemTime::now`). -/
def bedrock_anthropic_to_chat (response : Json) (model : String)
    (request_id : Option String) (uuid_simple : String) (now : Nat) :
    ChatCompletionResponse :=
  let acc₀ : AnthropicAcc := ⟨"", [], "stop"⟩
  let acc :=
    match response.get "content" |>.bind Json.as_array with
    | some content_array => content_array.foldl anthropicContentStep acc₀
    | none => acc₀
  let finish_reason :=
    match response.get "stop_reason" |>.bind Json.as_str with
    | some stop_reason => anthropicStopReason stop_reason
    | none => acc.finish_reason
  let usage : Option ChatUsage :=
    match response.get "usage" with
    | some usage_obj =>
        let prompt_tokens := (usage_obj.get "input_tokens" |>.bind Json.as_u64).getD 0
        let completion_tokens := (usage_obj.get "output_tokens" |>.bind Json.as_u64).getD 0
        some ⟨prompt_tokens, completion_tokens, prompt_tokens + completion_tokens, none, none⟩
    | none => none
  let message : ChatResponseMessage :=
    ⟨"assistant",
     if acc.content_text = "" ∧ ¬ acc.tool_calls.isEmpty then none else some acc.content_text,
     if acc.tool_calls.isEmpty then none else some acc.tool_calls, none⟩
  let id := match request_id with
    | some rid => rid
    | none => "chatcmpl-" ++ uuid_simple
  ⟨id, "chat.completion", now, model, [⟨0, message, some finish_reason, none⟩], usage, none⟩

end Bedrock

/-! ## Theorems -/

namespace Claims

open Auth Models Sse RouterClient Routing Conversion Bedrock

/-- C6, counterexample to the claim as stated: the claim exempts a zero
token limit from the floor, but `to_responses_request` raises a present
`max_tokens` of `0` to `16` like any other value below 16. -/
theorem max_output_tokens_zero_counterexample :
    to_responses_request_max_output_tokens none (some 0) = some 16 ∧
      (some 16 : Option Nat) ≠ some 0 := by
  constructor
  · rfl
  · decide

/-- C6 (amended): `to_responses_request` sets `max_output_tokens` to
`max_completion_tokens` when present, otherwise to `max_tokens`; any
present value below 16 — zero included — is raised to 16, values of at
least 16 pass unchanged, and the field is absent exactly when neither
input field is present. -/
theorem max_output_tokens_mapping (mct mt : Option Nat) :
    (to_responses_request_max_output_tokens mct mt = none ↔ mct = none ∧ mt = none) ∧
    (∀ v, mct = some v →
      to_responses_request_max_output_tokens mct mt = some (if v < 16 then 16 else v)) ∧
    (mct = none → ∀ v, mt = some v →
      to_responses_request_max_output_tokens mct mt = some (if v < 16 then 16 else v)) := by
  refine ⟨?_, ?_, ?_⟩
  · cases mct <;> cases mt <;> simp only [to_responses_request_max_output_tokens] <;>
      (try simp) <;> split <;> simp
  · intro v hv
    subst hv
    simp only [to_responses_request_max_output_tokens]
    split <;> simp_all
  · intro h v hv
    subst h
    subst hv
    simp only [to_responses_request_max_output_tokens]
    split <;> simp_all

/-- Witness for C6's theorem at concrete inputs. -/
theorem max_output_tokens_mapping_witness :
    to_responses_request_max_output_tokens (some 20) (some 5) =
      some (if 20 < 16 then 16 else 20) :=
  (max_output_tokens_mapping (some 20) (some 5)).2.1 20 rfl

/-- C3, counterexample to the claim as stated: the claim requires the
stored TTL to be the minimum of the plan's `cache_control.ttl_ms` and the
configured default, but `RouterCache::put` uses the plan's TTL whenever
the plan carries cache control — here 100000 ms against a 15000 ms
default, where the minimum would be 15000. -/
theorem router_cache_ttl_counterexample :
    (RouterCache.put (fun _ => none) 15000 0
        ⟨"labiium-001", "chat", false, [], none⟩
        ⟨"r1", ⟨"https://u.example/v1", .Chat, "m1", none, none⟩,
         some ⟨100000, none, none, none⟩, none⟩)
      (cache_key ⟨"labiium-001", "chat", false, [], none⟩) =
      some ⟨⟨"r1", ⟨"https://u.example/v1", .Chat, "m1", none, none⟩,
             some ⟨100000, none, none, none⟩, none⟩, 0 + 100000⟩ ∧
    (0 + 100000 : Nat) ≠ 0 + min 100000 15000 := by
  constructor
  · simp [RouterCache.put, putTtl]
  · decide

/-- C3 (amended): the decision-cache entry for a stored `RoutePlan`
expires `ttl` milliseconds after insertion where `ttl` is the plan's
`cache_control.ttl_ms` when the plan carries cache control and the
configured default otherwise (not their minimum); on lookup an entry is
returned only if now is before its expiry and, whenever both the caller's
and the entry's policy revisions are known, they coincide; on a revision
mismatch the entry is dropped (and the caller re-queries the router). -/
theorem router_cache_ttl_and_lookup (m : CacheMap) (default_ttl now : Nat)
    (req : RouteRequest) (plan : RoutePlan) :
    ((RouterCache.put m default_ttl now req plan) (cache_key req) =
        some ⟨plan, now + putTtl default_ttl plan⟩) ∧
    (∀ c, plan.cache = some c → putTtl default_ttl plan = c.ttl_ms) ∧
    (plan.cache = none → putTtl default_ttl plan = default_ttl) ∧
    (∀ rev plan', (RouterCache.get m now req rev).1 = some plan' →
      ∃ cached, m (cache_key req) = some cached ∧ cached.plan = plan' ∧
        now < cached.expires_at ∧
        (∀ r cr, rev = some r → plan'.policy_rev = some cr → cr = r)) ∧
    (∀ cached r cr, m (cache_key req) = some cached → now < cached.expires_at →
      cached.plan.policy_rev = some cr → cr ≠ r →
      (RouterCache.get m now req (some r)).1 = none ∧
        (RouterCache.get m now req (some r)).2 (cache_key req) = none) := by
  refine ⟨?_, ?_, ?_, ?_, ?_⟩
  · simp [RouterCache.put]
  · intro c hc; simp [putTtl, hc]
  · intro hc; simp [putTtl, hc]
  · intro rev plan' hget
    cases hm : m (cache_key req) with
    | none => simp [RouterCache.get, hm] at hget
    | some cached =>
        by_cases hexp : now < cached.expires_at
        · cases hrev : rev with
          | none =>
              simp [RouterCache.get, hm, hexp, hrev] at hget
              exact ⟨cached, rfl, hget, hexp, fun r cr hr _ => Option.noConfusion hr⟩
          | some r =>
              cases hcr : cached.plan.policy_rev with
              | none =>
                  simp [RouterCache.get, hm, hexp, hrev, hcr] at hget
                  refine ⟨cached, rfl, hget, hexp, fun r' cr' hr' hcr' => ?_⟩
                  rw [← hget, hcr] at hcr'
                  exact Option.noConfusion hcr'
              | some cr =>
                  by_cases hne : cr = r
                  · subst hne
                    simp [RouterCache.get, hm, hexp, hrev, hcr] at hget
                    refine ⟨cached, rfl, hget, hexp, fun r' cr' hr' hcr' => ?_⟩
                    rw [← hget, hcr] at hcr'
                    cases hr'
                    cases hcr'
                    rfl
                  · simp [RouterCache.get, hm, hexp, hrev, hcr, hne] at hget
        · simp [RouterCache.get, hm, hexp] at hget
  · intro cached r cr hm hexp hcr hne
    unfold RouterCache.get
    simp only [hm, if_pos hexp, hcr]
    simp [hne, cacheRemove]

/-- Witness for C3's theorem at concrete inputs. -/
theorem router_cache_ttl_and_lookup_witness :
    putTtl 15000 ⟨"r1", ⟨"https://u.example/v1", .Chat, "m1", none, none⟩,
      some ⟨100000, none, none, none⟩, none⟩ = (100000 : Nat) :=
  (router_cache_ttl_and_lookup (fun _ => none) 15000 0
      ⟨"labiium-001", "chat", false, [], none⟩ _).2.1
    ⟨100000, none, none, none⟩ rfl

/-- `select_backend` returns no backend exactly when the rule's pool is
empty: every strategy indexes into a non-empty pool or falls back to its
first/last element. -/
theorem select_backend_eq_none_iff (r : RoutingRule) (counter rng : Nat) :
    select_backend r counter rng = none ↔ r.backends = [] := by
  constructor
  · intro h
    by_contra hne
    have hlen : 0 < r.backends.length := List.length_pos.mpr hne
    unfold select_backend at h
    rw [if_neg (by simpa [List.isEmpty_iff] using hne)] at h
    cases hlb : r.load_balance <;> rw [hlb] at h
    · exact hne (List.head?_eq_none_iff.mp h)
    · exact absurd h (by
        simp [List.get?_eq_none]
        exact Nat.mod_lt _ hlen)
    · exact absurd h (by
        simp [List.get?_eq_none]
        exact Nat.mod_lt _ hlen)
    · dsimp only at h
      split at h
      · exact hne (List.head?_eq_none_iff.mp h)
      · split at h
        · exact Option.noConfusion h
        · exact hne (List.getLast?_eq_none_iff.mp h)
  · intro h
    simp [select_backend, h]

/-- C10: when the first matching enabled rule has an empty backend pool,
`resolve_route` does not fail on that rule; it falls through to the
default backend when one is configured, otherwise to environment
passthrough when `allow_passthrough` holds, and only with neither does
the `NoRouteForModel` error arise. -/
theorem resolve_route_empty_pool_falls_through (cfg : RoutingConfig)
    (env_base : Option (List Char)) (counter rng : Nat) (model : List Char)
    (rule : RoutingRule)
    (hfind : find_rule cfg (resolve_alias cfg model) = some rule)
    (hempty : rule.backends = []) :
    select_backend rule counter rng = none ∧
    (∀ dflt, cfg.default_backend = some dflt →
      resolve_route cfg env_base counter rng model =
        some ⟨dflt.base_url, dflt.key_env, dflt.mode, none, none⟩) ∧
    (cfg.default_backend = none → cfg.allow_passthrough = true →
      resolve_route cfg env_base counter rng model =
        some ⟨(match env_base with
               | some b => b
               | none => "https://api.openai.com/v1".toList),
              some "OPENAI_API_KEY".toList, .Responses, none, none⟩) ∧
    (cfg.default_backend = none → cfg.allow_passthrough = false →
      resolve_route cfg env_base counter rng model = none) := by
  have hsel : select_backend rule counter rng = none :=
    (select_backend_eq_none_iff rule counter rng).mpr hempty
  refine ⟨hsel, ?_, ?_, ?_⟩
  · intro dflt hdflt
    simp [resolve_route, hfind, hsel, hdflt]
  · intro hdflt hpass
    simp [resolve_route, hfind, hsel, hdflt, hpass]
  · intro hdflt hpass
    simp [resolve_route, hfind, hsel, hdflt, hpass]

/-- Witness for C10's theorem at a concrete configuration. -/
theorem resolve_route_empty_pool_falls_through_witness :
    resolve_route
        ⟨[], [⟨"r-empty".toList, none, .Any, [], .First, 0, none, true, none⟩],
         some ⟨"https://default.example/v1".toList, none, .Chat⟩, true⟩
        none 0 0 "gpt-4o".toList =
      some ⟨"https://default.example/v1".toList, none, .Chat, none, none⟩ :=
  (resolve_route_empty_pool_falls_through
      ⟨[], [⟨"r-empty".toList, none, .Any, [], .First, 0, none, true, none⟩],
       some ⟨"https://default.example/v1".toList, none, .Chat⟩, true⟩
      none 0 0 "gpt-4o".toList
      ⟨"r-empty".toList, none, .Any, [], .First, 0, none, true, none⟩
      rfl rfl).2.1
    ⟨"https://default.example/v1".toList, none, .Chat⟩ rfl

/-- C8, counterexample to the claim as stated: the claim makes
`resolve_route` fail exactly when **no enabled rule matches** (with no
default backend and passthrough disabled), but a configuration whose only
enabled rule matches the model with an empty backend pool also fails —
an enabled rule matches, yet the result is the `NoRouteForModel` error. -/
theorem resolve_route_failure_counterexample :
    (RoutingRule.matches
        ⟨"r-empty".toList, none, .Any, [], .First, 0, none, true, none⟩
        "gpt-4o".toList = true) ∧
    resolve_route
        ⟨[], [⟨"r-empty".toList, none, .Any, [], .First, 0, none, true, none⟩],
         none, false⟩
        none 0 0 "gpt-4o".toList = none := by
  constructor
  · rfl
  · rfl

/-- C8 (amended): `resolve_route` returns the `NoRouteForModel` error
exactly when no enabled rule match yields a backend (no enabled rule
matches the alias-resolved model, or the first match has an empty
backend pool), no `default_backend` is configured, and
`allow_passthrough` is false; in every other case it returns a
`ResolvedRoute` — the matched rule's selected backend first, else the
default backend, else environment passthrough. -/
theorem resolve_route_failure_condition (cfg : RoutingConfig)
    (env_base : Option (List Char)) (counter rng : Nat) (model : List Char) :
    (resolve_route cfg env_base counter rng model = none ↔
      ((match find_rule cfg (resolve_alias cfg model) with
        | some rule => rule.backends = []
        | none => True) ∧
       cfg.default_backend = none ∧ cfg.allow_passthrough = false)) ∧
    (∀ rule backend, find_rule cfg (resolve_alias cfg model) = some rule →
      select_backend rule counter rng = some backend →
      resolve_route cfg env_base counter rng model =
        some ⟨backend.base_url, backend.key_env, backend.mode,
              backend.timeout_seconds, some rule.id⟩) ∧
    (∀ dflt, cfg.default_backend = some dflt →
      (match find_rule cfg (resolve_alias cfg model) with
        | some rule => rule.backends = []
        | none => True) →
      resolve_route cfg env_base counter rng model =
        some ⟨dflt.base_url, dflt.key_env, dflt.mode, none, none⟩) ∧
    (cfg.default_backend = none → cfg.allow_passthrough = true →
      (match find_rule cfg (resolve_alias cfg model) with
        | some rule => rule.backends = []
        | none => True) →
      resolve_route cfg env_base counter rng model =
        some ⟨(match env_base with
               | some b => b
               | none => "https://api.openai.com/v1".toList),
              some "OPENAI_API_KEY".toList, .Responses, none, none⟩) := by
  refine ⟨?_, ?_, ?_, ?_⟩
  · constructor
    · intro hnone
      cases hfind : find_rule cfg (resolve_alias cfg model) with
      | some rule =>
          cases hsel : select_backend rule counter rng with
          | some backend => simp [resolve_route, hfind, hsel] at hnone
          | none =>
              simp only [resolve_route, hfind, hsel] at hnone
              refine ⟨by simpa using (select_backend_eq_none_iff rule counter rng).mp hsel, ?_⟩
              cases hdflt : cfg.default_backend with
              | some dflt => simp [hdflt] at hnone
              | none =>
                  simp only [hdflt] at hnone
                  refine ⟨rfl, ?_⟩
                  by_cases hpass : cfg.allow_passthrough
                  · simp [hpass] at hnone
                  · simpa using hpass
      | none =>
          simp only [resolve_route, hfind] at hnone
          refine ⟨trivial, ?_⟩
          cases hdflt : cfg.default_backend with
          | some dflt => simp [hdflt] at hnone
          | none =>
              simp only [hdflt] at hnone
              refine ⟨rfl, ?_⟩
              by_cases hpass : cfg.allow_passthrough
              · simp [hpass] at hnone
              · simpa using hpass
    · rintro ⟨hrule, hdflt, hpass⟩
      simp only [resolve_route]
      cases hfind : find_rule cfg (resolve_alias cfg model) with
      | some rule =>
          rw [hfind] at hrule
          have hsel : select_backend rule counter rng = none :=
            (select_backend_eq_none_iff rule counter rng).mpr hrule
          simp [hsel, hdflt, hpass]
      | none => simp [hdflt, hpass]
  · intro rule backend hfind hsel
    simp [resolve_route, hfind, hsel]
  · intro dflt hdflt hrule
    cases hfind : find_rule cfg (resolve_alias cfg model) with
    | some rule =>
        rw [hfind] at hrule
        have hsel : select_backend rule counter rng = none :=
          (select_backend_eq_none_iff rule counter rng).mpr hrule
        simp [resolve_route, hfind, hsel, hdflt]
    | none => simp [resolve_route, hfind, hdflt]
  · intro hdflt hpass hrule
    cases hfind : find_rule cfg (resolve_alias cfg model) with
    | some rule =>
        rw [hfind] at hrule
        have hsel : select_backend rule counter rng = none :=
          (select_backend_eq_none_iff rule counter rng).mpr hrule
        simp [resolve_route, hfind, hsel, hdflt, hpass]
    | none => simp [resolve_route, hfind, hdflt, hpass]

/-- Witness for C8's theorem at a concrete configuration: the matched
rule's backend is returned. -/
theorem resolve_route_failure_condition_witness :
    resolve_route
        ⟨[], [⟨"r1".toList, none, .Any,
              [⟨"https://primary.example/v1".toList, none, .Responses, 1, some 45, none⟩],
              .First, 0, none, true, none⟩],
         none, false⟩
        none 0 0 "gpt-4o".toList =
      some ⟨"https://primary.example/v1".toList, none, .Responses, some 45,
            some "r1".toList⟩ :=
  (resolve_route_failure_condition
      ⟨[], [⟨"r1".toList, none, .Any,
            [⟨"https://primary.example/v1".toList, none, .Responses, 1, some 45, none⟩],
            .First, 0, none, true, none⟩],
       none, false⟩
      none 0 0 "gpt-4o".toList).2.1
    ⟨"r1".toList, none, .Any,
     [⟨"https://primary.example/v1".toList, none, .Responses, 1, some 45, none⟩],
     .First, 0, none, true, none⟩
    ⟨"https://primary.example/v1".toList, none, .Responses, 1, some 45, none⟩
    rfl rfl

/-- Any `ToolCall` among the output items makes the collected chat
tool-call list non-empty. -/
theorem collectToolCalls_ne_nil (items : List OutputItem)
    (h : ∃ i ∈ items, ∃ id name args cid, i = OutputItem.ToolCall id name args cid) :
    collectToolCalls items ≠ [] := by
  induction items with
  | nil => simp at h
  | cons hd tl ih =>
      obtain ⟨i, hi, id, name, args, cid, hitem⟩ := h
      rcases List.mem_cons.mp hi with hhd | htl
      · subst hhd
        subst hitem
        simp [collectToolCalls]
      · cases hd with
        | ToolCall a b c d => simp [collectToolCalls]
        | AssistantMessage a b =>
            simpa [collectToolCalls] using ih ⟨i, htl, id, name, args, cid, hitem⟩
        | FunctionCallOutput a =>
            simpa [collectToolCalls] using ih ⟨i, htl, id, name, args, cid, hitem⟩
        | Other a =>
            simpa [collectToolCalls] using ih ⟨i, htl, id, name, args, cid, hitem⟩

/-- C9: translating a non-streaming upstream response to a Chat
Completions response, (1) in the Responses → Chat converter any
`ToolCall` output item forces `finish_reason = "tool_calls"`, and (2) in
the Bedrock (Anthropic) → Chat converter a present `stop_reason` string
is mapped through the table `end_turn → stop`, `max_tokens → length`,
`tool_use → tool_calls`, any other value passing through unchanged. -/
theorem stop_reason_translation :
    (∀ rr : ResponsesResponse,
      (∃ i ∈ rr.output, ∃ id name args cid, i = OutputItem.ToolCall id name args cid) →
      (responses_to_chat_response rr).choices.map (·.finish_reason) = [some "tool_calls"]) ∧
    (∀ (response : Json) (model : String) (request_id : Option String)
        (uuid_simple : String) (now : Nat) (s : String),
      (response.get "stop_reason").bind Json.as_str = some s →
      (bedrock_anthropic_to_chat response model request_id uuid_simple now).choices.map
          (·.finish_reason) = [some (anthropicStopReason s)]) ∧
    anthropicStopReason "end_turn" = "stop" ∧
    anthropicStopReason "max_tokens" = "length" ∧
    anthropicStopReason "tool_use" = "tool_calls" ∧
    (∀ s, s ≠ "end_turn" → s ≠ "max_tokens" → s ≠ "tool_use" →
      anthropicStopReason s = s) := by
  refine ⟨?_, ?_, rfl, rfl, rfl, ?_⟩
  · intro rr h
    have hne := collectToolCalls_ne_nil rr.output h
    simp [responses_to_chat_response, List.isEmpty_iff, hne]
  · intro response model request_id uuid_simple now s hs
    simp [bedrock_anthropic_to_chat, hs]
  · intro s h1 h2 h3
    simp [anthropicStopReason, h1, h2, h3]

/-- Witness for C9's theorem at concrete inputs. -/
theorem stop_reason_translation_witness :
    (bedrock_anthropic_to_chat (.obj [("stop_reason", .str "max_tokens")])
        "anthropic.claude-3-sonnet" none "0000" 0).choices.map (·.finish_reason) =
      [some (anthropicStopReason "max_tokens")] :=
  stop_reason_translation.2.1 (.obj [("stop_reason", .str "max_tokens")])
    "anthropic.claude-3-sonnet" none "0000" 0 "max_tokens" rfl

/-- Unfolding of `apply_transform` on an object body into the five
sequential map updates. -/
theorem apply_transform_obj_get (t : RequestTransform) (m : JsonMap) (k : List Char) :
    (apply_transform (some t) (.obj m)).get k =
      (let m1 := match t.rewrite_model with
        | some nm => mapInsert "model".toList (.vstring nm) m
        | none => m
      let m2 := match t.add_parameters with
        | some adds => adds.foldl (fun m kv => mapInsert kv.1 kv.2 m) m1
        | none => m1
      let m3 := match t.remove_parameters with
        | some rems => rems.foldl (fun m k => mapRemove k m) m2
        | none => m2
      let m4 := match t.override_temperature with
        | some temp => mapInsert "temperature".toList (.vf32 temp) m3
        | none => m3
      let m5 := match t.override_max_tokens with
        | some mt => mapInsert "max_tokens".toList (.vu32 mt) m4
        | none => m4
      m5 k) := by
  obtain ⟨rm, ap, rp, ot, om⟩ := t
  cases rm <;> cases ap <;> cases rp <;> cases ot <;> cases om <;> rfl

/-- Lookup after a left fold of removals: a removed key reads `none`,
any other key is untouched. -/
theorem foldl_mapRemove_get (rems : List (List Char)) (m : JsonMap) (k : List Char) :
    (rems.foldl (fun m k => mapRemove k m) m) k =
      if k ∈ rems then none else m k := by
  induction rems generalizing m with
  | nil => simp
  | cons r rest ih =>
      simp only [List.foldl_cons, ih]
      by_cases hk : k = r
      · subst hk
        simp [mapRemove]
      · by_cases hmem : k ∈ rest <;> simp [hmem, mapRemove, hk, List.mem_cons]

/-- Point lemmas for single map updates. -/
theorem mapInsert_get_self (k : List Char) (v : JsonValue) (m : JsonMap) :
    mapInsert k v m k = some v := by
  simp [mapInsert]

/-- Inserting under a different key does not change a lookup. -/
theorem mapInsert_get_ne (k k' : List Char) (v : JsonValue) (m : JsonMap)
    (h : k' ≠ k) : mapInsert k v m k' = m k' := by
  simp [mapInsert, h]

/-- Pointwise equality of maps is preserved by folding insertions. -/
theorem foldl_mapInsert_congr (adds : List (List Char × JsonValue))
    (m1 m2 : JsonMap) (h : ∀ k, m1 k = m2 k) (k : List Char) :
    (adds.foldl (fun m kv => mapInsert kv.1 kv.2 m) m1) k =
      (adds.foldl (fun m kv => mapInsert kv.1 kv.2 m) m2) k := by
  induction adds generalizing m1 m2 with
  | nil => exact h k
  | cons a rest ih =>
      simp only [List.foldl_cons]
      exact ih (mapInsert a.1 a.2 m1) (mapInsert a.1 a.2 m2)
        (fun k' => by by_cases hk : k' = a.1 <;> simp [mapInsert, hk, h k'])

/-- Folding insertions over two permuted key-value lists with pairwise
distinct keys produces pointwise equal maps (the `HashMap` iteration
order of `add_parameters` does not matter). -/
theorem foldl_mapInsert_perm (adds adds' : List (List Char × JsonValue))
    (hperm : adds.Perm adds') :
    ∀ (m : JsonMap) (k : List Char), (adds.map Prod.fst).Nodup →
    (adds.foldl (fun m kv => mapInsert kv.1 kv.2 m) m) k =
      (adds'.foldl (fun m kv => mapInsert kv.1 kv.2 m) m) k := by
  induction hperm with
  | nil => intro m k _; rfl
  | cons x hperm ih =>
      intro m k hnd
      simp only [List.foldl_cons]
      exact ih _ k (by simpa using hnd.of_cons)
  | swap x y rest =>
      intro m k hnd
      simp only [List.foldl_cons]
      have hxy : x.1 ≠ y.1 := by
        simp only [List.map_cons, List.nodup_cons, List.mem_cons, not_or] at hnd
        exact fun h => hnd.1.1 h.symm
      refine foldl_mapInsert_congr rest
        (mapInsert x.1 x.2 (mapInsert y.1 y.2 m))
        (mapInsert y.1 y.2 (mapInsert x.1 x.2 m)) (fun k' => ?_) k
      by_cases h1 : k' = x.1
      · subst h1
        simp [mapInsert, hxy]
      · by_cases h2 : k' = y.1
        · subst h2
          simp [mapInsert, h1]
        · simp [mapInsert, h1, h2]
  | trans h1 h2 ih1 ih2 =>
      intro m k hnd
      exact (ih1 m k hnd).trans (ih2 m k ((h1.map Prod.fst).nodup_iff.mp hnd))

/-- C7: `apply_transform` applies `rewrite_model`, `add_parameters`,
`remove_parameters`, `override_temperature`, `override_max_tokens` in
that fixed order; consequently (a) a key listed in both `add_parameters`
and `remove_parameters` is absent afterwards (unless it is re-added by
one of the two overrides), (b) `override_temperature` and
`override_max_tokens` always win for `"temperature"`/`"max_tokens"`, and
(c) the result does not depend on the iteration order of the
`add_parameters` map. -/
theorem apply_transform_order (t : RequestTransform) (m : JsonMap) :
    (∀ k adds rems, t.add_parameters = some adds → t.remove_parameters = some rems →
      k ∈ adds.map Prod.fst → k ∈ rems →
      (k = "temperature".toList → t.override_temperature = none) →
      (k = "max_tokens".toList → t.override_max_tokens = none) →
      (apply_transform (some t) (.obj m)).get k = none) ∧
    (∀ temp, t.override_temperature = some temp →
      (apply_transform (some t) (.obj m)).get "temperature".toList =
        some (.vf32 temp)) ∧
    (∀ mt, t.override_max_tokens = some mt →
      (apply_transform (some t) (.obj m)).get "max_tokens".toList =
        some (.vu32 mt)) ∧
    (∀ adds adds', t.add_parameters = some adds → adds.Perm adds' →
      (adds.map Prod.fst).Nodup → ∀ k,
      (apply_transform (some { t with add_parameters := some adds' })
          (.obj m)).get k =
        (apply_transform (some t) (.obj m)).get k) := by
  refine ⟨?_, ?_, ?_, ?_⟩
  · intro k adds rems hadds hrems hkadds hkrems htemp hmax
    rw [apply_transform_obj_get]
    rcases hot : t.override_temperature with _ | temp <;>
      rcases hom : t.override_max_tokens with _ | mt <;>
        simp only [hadds, hrems, hot, hom]
    · rw [foldl_mapRemove_get, if_pos hkrems]
    · have hk : k ≠ "max_tokens".toList := fun h => by
        rw [hmax h] at hom
        exact Option.noConfusion hom
      rw [mapInsert_get_ne _ _ _ _ hk, foldl_mapRemove_get, if_pos hkrems]
    · have hk : k ≠ "temperature".toList := fun h => by
        rw [htemp h] at hot
        exact Option.noConfusion hot
      rw [mapInsert_get_ne _ _ _ _ hk, foldl_mapRemove_get, if_pos hkrems]
    · have hk1 : k ≠ "temperature".toList := fun h => by
        rw [htemp h] at hot
        exact Option.noConfusion hot
      have hk2 : k ≠ "max_tokens".toList := fun h => by
        rw [hmax h] at hom
        exact Option.noConfusion hom
      rw [mapInsert_get_ne _ _ _ _ hk2, mapInsert_get_ne _ _ _ _ hk1,
        foldl_mapRemove_get, if_pos hkrems]
  · intro temp htemp
    rw [apply_transform_obj_get]
    simp only [htemp]
    rcases hom : t.override_max_tokens with _ | mt
    · simp [mapInsert]
    · simp [mapInsert]
  · intro mt hmt
    rw [apply_transform_obj_get]
    simp only [hmt]
    simp [mapInsert]
  · intro adds adds' hadds hperm hnd k
    rw [apply_transform_obj_get, apply_transform_obj_get]
    simp only [hadds]
    have hfold : ∀ (base : JsonMap) (k' : List Char),
        (adds'.foldl (fun m kv => mapInsert kv.1 kv.2 m) base) k' =
          (adds.foldl (fun m kv => mapInsert kv.1 kv.2 m) base) k' :=
      fun base k' => (foldl_mapInsert_perm adds adds' hperm base k' hnd).symm
    rcases hrp : t.remove_parameters with _ | rems <;>
      rcases hot : t.override_temperature with _ | temp <;>
      rcases hom : t.override_max_tokens with _ | mt <;>
      simp only [mapInsert, foldl_mapRemove_get, hfold]


/-- Witness for C7's theorem at concrete inputs: a key added and removed
by the same transform is absent afterwards. -/
theorem apply_transform_order_witness :
    (apply_transform
        (some ⟨none, some [("top_k".toList, .vu32 42)], some ["top_k".toList], none, none⟩)
        (.obj (fun _ => none))).get "top_k".toList = none :=
  (apply_transform_order
      ⟨none, some [("top_k".toList, .vu32 42)], some ["top_k".toList], none, none⟩
      (fun _ => none)).1
    "top_k".toList [("top_k".toList, .vu32 42)] ["top_k".toList] rfl rfl
    (by simp) (by simp) (fun h => by simp at h) (fun h => by simp at h)

/-- Structural facts about a successful `generate_key`: the record is
created now, unrevoked, its expiry (when set) is no earlier than its
creation, and the store is extended exactly at the fresh id. -/
theorem generate_key_inv (env : GenEnv) (store : KeyLookup) (now u : Nat)
    (secret_bytes salt : List Nat) (label : Option (List Char)) (ttl : Option Nat)
    (scopes : Option (List (List Char))) (g : GeneratedKey) (r : ApiKeyRecord)
    (st' : KeyLookup)
    (hg : generate_key env store now u secret_bytes salt label ttl scopes =
      some (g, r, st')) :
    r.created_at = now ∧ r.revoked_at = none ∧
    (∀ e, r.expires_at = some e → now ≤ e) ∧
    st' (uuid_hex u) = some r ∧ (∀ i, i ≠ uuid_hex u → st' i = store i) := by
  simp only [generate_key] at hg
  split at hg
  · exact Option.noConfusion hg
  · split at hg
    · exact Option.noConfusion hg
    · split at hg
      · exact Option.noConfusion hg
      · rename_i sbytes hdec
        rw [Option.some.injEq, Prod.mk.injEq, Prod.mk.injEq] at hg
        obtain ⟨-, hr, hst⟩ := hg
        subst hr
        subst hst
        refine ⟨rfl, rfl, ?_, by simp, fun i hi => by simp [hi]⟩
        intro e he
        simp only [Option.map_eq_some'] at he
        obtain ⟨d, -, hd⟩ := he
        omega

/-- One `AuthManager` operation cannot unset or change a set
`revoked_at`, provided a generation lands on a fresh id. -/
theorem applyOp_preserves_revoked (store : KeyLookup) (op : AuthOp)
    (id : List Char) (r : ApiKeyRecord) (ts : Nat)
    (hfresh : opFresh store op) (hstore : store id = some r)
    (hrev : r.revoked_at = some ts) :
    ∃ r', applyOp store op id = some r' ∧ r'.revoked_at = some ts := by
  cases op with
  | gen env now u sb salt label ttl scopes =>
      have hne : id ≠ uuid_hex u := fun h => by
        rw [h] at hstore
        rw [hfresh] at hstore
        exact Option.noConfusion hstore
      dsimp only [applyOp]
      cases hgen : generate_key env store now u sb salt label ttl scopes with
      | none => exact ⟨r, hstore, hrev⟩
      | some res =>
          obtain ⟨g, r0, st'⟩ := res
          have := (generate_key_inv env store now u sb salt label ttl scopes
            g r0 st' hgen).2.2.2.2 id hne
          exact ⟨r, this.trans hstore, hrev⟩
  | rev now id' =>
      dsimp only [applyOp, revoke]
      by_cases hid : id' = id
      · subst hid
        simp only [hstore]
        rw [if_neg (by simp [hrev])]
        exact ⟨r, hstore, hrev⟩
      · cases hstore' : store id' with
        | none =>
            simp only [hstore']
            exact ⟨r, hstore, hrev⟩
        | some r2 =>
            simp only [hstore']
            by_cases hr2 : r2.revoked_at = none
            · rw [if_pos hr2]
              refine ⟨r, ?_, hrev⟩
              have hne : ¬ id = id' := fun h => hid h.symm
              simp [hne, hstore]
            · rw [if_neg hr2]
              exact ⟨r, hstore, hrev⟩
  | setExp id' e =>
      dsimp only [applyOp, set_expiration]
      by_cases hid : id' = id
      · subst hid
        simp only [hstore]
        exact ⟨{ r with expires_at := e }, by simp, hrev⟩
      · cases hstore' : store id' with
        | none =>
            simp only [hstore']
            exact ⟨r, hstore, hrev⟩
        | some r2 =>
            simp only [hstore']
            refine ⟨r, ?_, hrev⟩
            have hne : ¬ id = id' := fun h => hid h.symm
            simp [hne, hstore]

/-- C4 (amended): records as created by `generate_key` satisfy
`created_at ≤ expires_at` whenever an expiry is set, and a `revoked_at`
timestamp, once set, is never unset or changed by any subsequent
operation (ids of later generations being fresh); `set_expiration`,
however, may store an arbitrary `expires_at`, including one earlier than
`created_at`. -/
theorem key_record_invariants :
    (∀ env store now u sb salt label ttl scopes g r st',
      generate_key env store now u sb salt label ttl scopes = some (g, r, st') →
      ∀ e, r.expires_at = some e → r.created_at ≤ e) ∧
    (∀ store ops id r ts, freshRun store ops → store id = some r →
      r.revoked_at = some ts →
      ∃ r', runOps store ops id = some r' ∧ r'.revoked_at = some ts) := by
  constructor
  · intro env store now u sb salt label ttl scopes g r st' hg e he
    obtain ⟨hcreated, -, hexp, -⟩ :=
      generate_key_inv env store now u sb salt label ttl scopes g r st' hg
    rw [hcreated]
    exact hexp e he
  · intro store ops
    induction ops generalizing store with
    | nil => exact fun id r ts _ hstore hrev => ⟨r, hstore, hrev⟩
    | cons op rest ih =>
        intro id r ts hfr hstore hrev
        obtain ⟨hfresh, hrest⟩ := hfr
        obtain ⟨r'', hstep, hrev''⟩ :=
          applyOp_preserves_revoked store op id r ts hfresh hstore hrev
        exact ih (applyOp store op) id r'' ts hrest hstep hrev''

/-- Witness for C4's theorem at concrete inputs: a revoked record
survives a later `set_expiration` with its `revoked_at` intact. -/
theorem key_record_invariants_witness :
    ∃ r', runOps
        (fun i => if i = "k".toList then
          some ⟨"k".toList, none, 1, none, some 5, [], [], none⟩ else none)
        [.setExp "k".toList (some 99)] "k".toList = some r' ∧
      r'.revoked_at = some 5 :=
  key_record_invariants.2
    (fun i => if i = "k".toList then
      some ⟨"k".toList, none, 1, none, some 5, [], [], none⟩ else none)
    [.setExp "k".toList (some 99)] "k".toList
    ⟨"k".toList, none, 1, none, some 5, [], [], none⟩ 5
    ⟨trivial, trivial⟩ (by simp) rfl

/-- C4, counterexample to the claim as stated: `set_expiration` stores an
arbitrary expiry, so a record generated at epoch second 100 can be given
`expires_at = 0`, violating `created_at ≤ expires_at` on a reachable
record. -/
theorem key_record_invariant_counterexample :
    ((runOps emptyStore
        [.gen ⟨false, false, none⟩ 100 0 (List.replicate 32 0) (List.replicate 16 0)
           none (some 10) none,
         .setExp (uuid_hex 0) (some 0)])
      (uuid_hex 0)).map (fun r => (r.created_at, r.expires_at)) =
        some (100, some 0) ∧
    ¬ (100 ≤ 0) := by
  constructor
  · rfl
  · decide

/-- Hex digits of values below 16 decode back to themselves. -/
theorem hex_val_hexDigit : ∀ n < 16, hex_val (hexDigit n) = some n := by decide

/-- Witness (supporting use) for `hex_val_hexDigit`. -/
theorem hex_val_hexDigit_witness : hex_val (hexDigit 10) = some 10 :=
  hex_val_hexDigit 10 (by decide)

/-- Hex digits are ASCII hex characters, not whitespace and not `'.'`. -/
theorem hexDigit_char_facts :
    ∀ n < 16, isHexByte (hexDigit n) = true ∧
      (hexDigit n).isWhitespace = false ∧ hexDigit n ≠ '.' := by decide

set_option maxRecDepth 8192 in
/-- The high and low nibbles of a byte are below 16, and recombine to the
byte. -/
theorem nibble_facts : ∀ b < 256,
    b >>> 4 < 16 ∧ b &&& 0x0f < 16 ∧ ((b >>> 4) <<< 4) ||| (b &&& 0x0f) = b := by decide

/-- `dropWhile` is the identity when no element satisfies the predicate. -/
theorem dropWhile_eq_self_of_none {α : Type} (p : α → Bool) (l : List α)
    (h : ∀ x ∈ l, p x = false) : l.dropWhile p = l := by
  cases l with
  | nil => rfl
  | cons a t => simp [List.dropWhile_cons, h a (List.mem_cons_self a t)]

/-- `trimChars` is the identity on whitespace-free text. -/
theorem trimChars_eq_self (s : List Char)
    (h : ∀ c ∈ s, c.isWhitespace = false) : trimChars s = s := by
  unfold trimChars
  rw [dropWhile_eq_self_of_none _ _ h,
    dropWhile_eq_self_of_none _ _ (fun c hc => h c (List.mem_reverse.mp hc)),
    List.reverse_reverse]

/-- Every character of `hex_encode bs` of bytes is a hex digit of a value
below 16. -/
theorem hex_encode_chars (bs : List Nat) (hb : ∀ b ∈ bs, b < 256) :
    ∀ c ∈ hex_encode bs, ∃ n < 16, c = hexDigit n := by
  induction bs with
  | nil => simp [hex_encode]
  | cons b rest ih =>
      intro c hc
      have hb0 := hb b (List.mem_cons_self b rest)
      obtain ⟨h1, h2, -⟩ := nibble_facts b hb0
      simp only [hex_encode, List.map_cons, List.flatten_cons, List.mem_append,
        List.mem_cons, List.mem_singleton] at hc
      rcases hc with (h | h | h) | h
      · exact ⟨b >>> 4, h1, h⟩
      · exact ⟨b &&& 0x0f, h2, h⟩
      · simp at h
      · exact ih (fun x hx => hb x (List.mem_cons_of_mem b hx)) c (by simpa [hex_encode] using h)

/-- `hex_encode` produces an even-length string. -/
theorem hex_encode_length (bs : List Nat) : (hex_encode bs).length = 2 * bs.length := by
  induction bs with
  | nil => rfl
  | cons b rest ih => simp [hex_encode] at ih ⊢; omega

/-- Pair decoding inverts `hex_encode` on genuine bytes. -/
theorem hex_decode_pairs_hex_encode (bs : List Nat) (hb : ∀ b ∈ bs, b < 256) :
    hex_decode_pairs (hex_encode bs) = some bs := by
  induction bs with
  | nil => rfl
  | cons b rest ih =>
      have hb0 := hb b (List.mem_cons_self b rest)
      obtain ⟨h1, h2, h3⟩ := nibble_facts b hb0
      show hex_decode_pairs (hexDigit (b >>> 4) :: hexDigit (b &&& 0x0f) :: hex_encode rest)
        = some (b :: rest)
      rw [hex_decode_pairs, hex_val_hexDigit _ h1, hex_val_hexDigit _ h2,
        ih (fun x hx => hb x (List.mem_cons_of_mem b hx))]
      simp [h3]

/-- `hex_decode ∘ hex_encode` is the identity on lists of bytes. -/
theorem hex_decode_hex_encode (bs : List Nat) (hb : ∀ b ∈ bs, b < 256) :
    hex_decode (hex_encode bs) = some bs := by
  unfold hex_decode
  rw [trimChars_eq_self _ (fun c hc => by
    obtain ⟨n, hn, hcn⟩ := hex_encode_chars bs hb c hc
    rw [hcn]
    exact (hexDigit_char_facts n hn).2.1)]
  rw [if_pos (by rw [hex_encode_length]; omega)]
  exact hex_decode_pairs_hex_encode bs hb

/-- Constant-time equality is reflexive. -/
theorem ct_eq_self (a : List Nat) : ct_eq a a = true := by
  unfold ct_eq
  rw [if_pos rfl]
  have : ∀ t : List Nat, List.zipWith Nat.xor t t = List.replicate t.length 0 := by
    intro t
    induction t with
    | nil => rfl
    | cons x s ih =>
        simp only [List.zipWith_cons_cons, ih, List.length_cons, List.replicate_succ,
          show x.xor x = 0 from Nat.xor_self x]
  have : List.zipWith Nat.xor a a = List.replicate a.length 0 := this a
  rw [this]
  have : ∀ n, (List.replicate n 0).foldl Nat.lor 0 = 0 := by
    intro n
    induction n with
    | zero => rfl
    | succ n ih => simpa [List.replicate_succ] using ih
  simp [this]

/-- Big-endian byte rendering produces genuine bytes. -/
theorem natToBeBytes_lt (n : Nat) : ∀ k, ∀ b ∈ natToBeBytes n k, b < 256 := by
  intro k
  induction k generalizing n with
  | zero => simp [natToBeBytes]
  | succ k ih =>
      intro b hb
      simp only [natToBeBytes, List.mem_append, List.mem_singleton] at hb
      rcases hb with h | h
      · exact ih _ b h
      · rw [h]
        exact Nat.mod_lt _ (by omega)

/-- The SHA-256 digest is a list of bytes. -/
theorem sha256_bytes_lt (data : List Nat) : ∀ b ∈ sha256 data, b < 256 := by
  intro b hb
  simp only [sha256, List.mem_flatten, List.mem_map] at hb
  obtain ⟨l, ⟨v, -, hv⟩, hbl⟩ := hb
  exact natToBeBytes_lt v 4 b (hv ▸ hbl)

/-- `uuid_hex` renders 32 hex characters, none of which is a dot. -/
theorem uuid_hex_facts (u : Nat) :
    (uuid_hex u).length = 32 ∧ is_hex (uuid_hex u) = true ∧ '.' ∉ uuid_hex u := by
  refine ⟨by simp [uuid_hex], ?_, ?_⟩
  · rw [is_hex, List.all_eq_true]
    intro c hc
    simp only [uuid_hex, List.mem_map] at hc
    obtain ⟨i, -, hi⟩ := hc
    rw [← hi]
    exact (hexDigit_char_facts _ (Nat.mod_lt _ (by omega))).1
  · intro hc
    simp only [uuid_hex, List.mem_map] at hc
    obtain ⟨i, -, hi⟩ := hc
    exact (hexDigit_char_facts _ (Nat.mod_lt _ (by omega))).2.2 hi

/-- `split_once('.')` splits at the first dot. -/
theorem splitOnceDot_append (xs ys : List Char) (h : '.' ∉ xs) :
    splitOnceDot (xs ++ '.' :: ys) = some (xs, ys) := by
  induction xs with
  | nil => simp [splitOnceDot]
  | cons c t ih =>
      have hc : c ≠ '.' := fun hc => h (by simp [hc])
      have ht : '.' ∉ t := fun hm => h (List.mem_cons_of_mem c hm)
      show splitOnceDot (c :: (t ++ '.' :: ys)) = some (c :: t, ys)
      simp only [splitOnceDot, if_neg hc, ih ht]
      rfl

/-- `parse_token` accepts a well-formed generated token and returns its id
and secret. -/
theorem parse_token_generated (id secret : List Char)
    (hid_len : id.length = 32) (hid_hex : is_hex id = true) (hid_dot : '.' ∉ id)
    (hsec_len : 32 ≤ secret.length) (hsec_hex : is_hex secret = true) :
    parse_token ("sk_".toList ++ id ++ '.' :: secret) = some (id, secret) := by
  unfold parse_token
  rw [if_pos (by simp)]
  have hdrop : ("sk_".toList ++ id ++ '.' :: secret).drop 3 = id ++ '.' :: secret := by
    simp
  rw [hdrop, splitOnceDot_append id secret hid_dot]
  simp [hid_len, hid_hex, hsec_len, hsec_hex]

/-- `verify_hash` never reports revocation or expiry. -/
theorem verify_hash_ne_revoked_expired (r : ApiKeyRecord) (secret : List Char) :
    (∀ ts, verify_hash r secret ≠ .Revoked ts) ∧
    (∀ ts, verify_hash r secret ≠ .Expired ts) := by
  unfold verify_hash
  cases hs : hex_decode r.salt_hex with
  | none => simp
  | some saltb =>
      cases hsec : hex_decode secret with
      | none => simp
      | some sb =>
          cases hh : hex_decode r.hash_hex with
          | none => simp
          | some expected =>
              by_cases hct : ct_eq (sha256 (saltb ++ sb)) expected = true
              · simp [hct]
              · rw [Bool.not_eq_true] at hct
                simp [hct]

/-- The hash-checking tail of `verify`: `Valid` exactly on a full
salt/secret/hash decode with matching digest; `HashMismatch` on a
malformed stored salt or hash or a digest mismatch; `InvalidTokenFormat`
when the secret's hex fails to decode. -/
theorem verify_hash_spec (r : ApiKeyRecord) (secret : List Char) :
    ((verify_hash r secret = .Valid r.id r.label r.expires_at r.scopes) ↔
      (∃ salt sb expected, hex_decode r.salt_hex = some salt ∧
        hex_decode secret = some sb ∧ hex_decode r.hash_hex = some expected ∧
        ct_eq (sha256 (salt ++ sb)) expected = true)) ∧
    (hex_decode r.salt_hex = none → verify_hash r secret = .HashMismatch) ∧
    ((hex_decode r.salt_hex).isSome → hex_decode secret = none →
      verify_hash r secret = .InvalidTokenFormat) ∧
    ((hex_decode r.salt_hex).isSome → (hex_decode secret).isSome →
      ¬ (∃ salt sb expected, hex_decode r.salt_hex = some salt ∧
          hex_decode secret = some sb ∧ hex_decode r.hash_hex = some expected ∧
          ct_eq (sha256 (salt ++ sb)) expected = true) →
      verify_hash r secret = .HashMismatch) := by
  unfold verify_hash
  cases hs : hex_decode r.salt_hex with
  | none => simp
  | some saltb =>
      cases hsec : hex_decode secret with
      | none => simp
      | some sb =>
          cases hh : hex_decode r.hash_hex with
          | none => simp
          | some expected =>
              by_cases hct : ct_eq (sha256 (saltb ++ sb)) expected = true
              · simp [hct]
              · simp only [Bool.not_eq_true] at hct
                simp [hct]

/-- C1 (amended): for a stored record resolved from a syntactically valid
token, `verify` returns `Revoked{ts}` iff `revoked_at` is set (checked
first), else `Expired{ts}` iff an expiry is set with `now ≥ expires_at`,
else — when the secret's hex decodes — `Valid{id,label,expires_at,scopes}`
iff `SHA-256(salt ‖ decodeHex(secret))` matches the stored hash and
`HashMismatch` otherwise (also when the stored salt or hash is
malformed); a secret whose hex fails to decode (odd length) yields
`InvalidTokenFormat`, as does any token failing the grammar. -/
theorem verify_decision_procedure (lookup : KeyLookup) (now : Nat)
    (token id secret : List Char) (r : ApiKeyRecord)
    (hparse : parse_token token = some (id, secret))
    (hlookup : lookup id = some r) :
    (∀ ts, verify lookup now token = .Revoked ts ↔ r.revoked_at = some ts) ∧
    (r.revoked_at = none →
      ∀ ts, verify lookup now token = .Expired ts ↔
        r.expires_at = some ts ∧ ts ≤ now) ∧
    (r.revoked_at = none → (∀ e, r.expires_at = some e → now < e) →
      ((verify lookup now token = .Valid r.id r.label r.expires_at r.scopes) ↔
        (∃ salt sb expected, hex_decode r.salt_hex = some salt ∧
          hex_decode secret = some sb ∧ hex_decode r.hash_hex = some expected ∧
          ct_eq (sha256 (salt ++ sb)) expected = true)) ∧
      (hex_decode r.salt_hex = none →
        verify lookup now token = .HashMismatch) ∧
      ((hex_decode r.salt_hex).isSome → hex_decode secret = none →
        verify lookup now token = .InvalidTokenFormat) ∧
      ((hex_decode r.salt_hex).isSome → (hex_decode secret).isSome →
        ¬ (∃ salt sb expected, hex_decode r.salt_hex = some salt ∧
            hex_decode secret = some sb ∧ hex_decode r.hash_hex = some expected ∧
            ct_eq (sha256 (salt ++ sb)) expected = true) →
        verify lookup now token = .HashMismatch)) ∧
    (∀ t, parse_token t = none → verify lookup now t = .InvalidTokenFormat) := by
  have hv : verify lookup now token =
      (match r.revoked_at with
      | some ts => .Revoked ts
      | none =>
          match r.expires_at with
          | some exp =>
              if exp ≤ now then .Expired exp else verify_hash r secret
          | none => verify_hash r secret) := by
    simp only [verify, hparse, hlookup]
  refine ⟨?_, ?_, ?_, ?_⟩
  · intro ts
    cases hrv : r.revoked_at with
    | some ts' =>
        simp only [hrv] at hv
        rw [hv]
        simp
    | none =>
        simp only [hrv] at hv
        rw [hv]
        cases hexp : r.expires_at with
        | some exp =>
            by_cases hle : exp ≤ now
            · simp [hle]
            · simp [hle, (verify_hash_ne_revoked_expired r secret).1 ts]
        | none => simp [(verify_hash_ne_revoked_expired r secret).1 ts]
  · intro hrv ts
    simp only [hrv] at hv
    rw [hv]
    cases hexp : r.expires_at with
    | some exp =>
        by_cases hle : exp ≤ now
        · simp only [if_pos hle]
          constructor
          · intro h
            cases h
            exact ⟨rfl, hle⟩
          · rintro ⟨he, -⟩
            cases he
            rfl
        · simp only [if_neg hle]
          constructor
          · intro h
            exact absurd h ((verify_hash_ne_revoked_expired r secret).2 ts)
          · rintro ⟨he, hts⟩
            cases he
            exact absurd hts hle
    | none =>
        simp [(verify_hash_ne_revoked_expired r secret).2 ts]
  · intro hrv hnexp
    have hv' : verify lookup now token = verify_hash r secret := by
      rw [hv]
      simp only [hrv]
      cases hexp : r.expires_at with
      | some exp =>
          have : ¬ exp ≤ now := Nat.not_le.mpr (hnexp exp hexp)
          simp [this]
      | none => rfl
    rw [hv']
    exact verify_hash_spec r secret
  · intro t ht
    simp [verify, ht]

/-- Witness for C1's theorem at concrete inputs (a revoked record). -/
theorem verify_decision_procedure_witness :
    verify
        (fun i => if i = List.replicate 32 '0' then
          some ⟨List.replicate 32 '0', none, 0, none, some 7, [], [], none⟩ else none)
        5 ("sk_".toList ++ List.replicate 32 '0' ++ '.' :: List.replicate 64 'a') =
      .Revoked 7 ↔
    (⟨List.replicate 32 '0', none, 0, none, some 7, [], [],
      none⟩ : ApiKeyRecord).revoked_at = some 7 :=
  (verify_decision_procedure
      (fun i => if i = List.replicate 32 '0' then
        some ⟨List.replicate 32 '0', none, 0, none, some 7, [], [], none⟩ else none)
      5 ("sk_".toList ++ List.replicate 32 '0' ++ '.' :: List.replicate 64 'a')
      (List.replicate 32 '0') (List.replicate 64 'a')
      ⟨List.replicate 32 '0', none, 0, none, some 7, [], [], none⟩
      (by decide) (by decide)).1 7

/-- C1, counterexample to the claim as stated: a token whose secret part
is 33 hex characters satisfies the token grammar (`≥ 32` hex chars) and
resolves to an unrevoked, unexpired record, so the claim's chain ends in
`Valid`-or-`HashMismatch`; the code instead returns `InvalidTokenFormat`
because the odd-length secret fails hex decoding. -/
theorem verify_claim_counterexample :
    parse_token ("sk_".toList ++ List.replicate 32 '0' ++ '.' :: List.replicate 33 'a') =
      some (List.replicate 32 '0', List.replicate 33 'a') ∧
    (fun i => if i = List.replicate 32 '0' then
        some (⟨List.replicate 32 '0', none, 0, none, none, [], [],
          none⟩ : ApiKeyRecord) else none) (List.replicate 32 '0') =
      some ⟨List.replicate 32 '0', none, 0, none, none, [], [], none⟩ ∧
    (⟨List.replicate 32 '0', none, 0, none, none, [], [],
      none⟩ : ApiKeyRecord).revoked_at = none ∧
    (⟨List.replicate 32 '0', none, 0, none, none, [], [],
      none⟩ : ApiKeyRecord).expires_at = none ∧
    verify
        (fun i => if i = List.replicate 32 '0' then
          some ⟨List.replicate 32 '0', none, 0, none, none, [], [], none⟩ else none)
        0 ("sk_".toList ++ List.replicate 32 '0' ++ '.' :: List.replicate 33 'a') =
      .InvalidTokenFormat ∧
    Verification.InvalidTokenFormat ≠ .HashMismatch := by
  refine ⟨by decide, rfl, rfl, rfl, by decide, by decide⟩

/-- `hex_encode` produces hex text. -/
theorem is_hex_hex_encode (bs : List Nat) (hb : ∀ b ∈ bs, b < 256) :
    is_hex (hex_encode bs) = true := by
  rw [is_hex, List.all_eq_true]
  intro c hc
  obtain ⟨n, hn, hcn⟩ := hex_encode_chars bs hb c hc
  rw [hcn]
  exact (hexDigit_char_facts n hn).1

/-- The components produced by a successful `generate_key`. -/
theorem generate_key_components (env : GenEnv) (store : KeyLookup) (now u : Nat)
    (sb salt : List Nat) (label : Option (List Char)) (ttl : Option Nat)
    (scopes : Option (List (List Char))) (g : GeneratedKey) (r : ApiKeyRecord)
    (st' : KeyLookup) (hsb : ∀ b ∈ sb, b < 256)
    (hg : generate_key env store now u sb salt label ttl scopes = some (g, r, st')) :
    ∃ ttl_eff : Option Nat,
      (∀ d, ttl_eff = some d → d ≠ 0) ∧
      g = ⟨uuid_hex u, "sk_".toList ++ uuid_hex u ++ '.' :: hex_encode sb, now,
           ttl_eff.map (fun d => now + d), label, scopes⟩ ∧
      r = ⟨uuid_hex u, label, now, ttl_eff.map (fun d => now + d), none,
           hex_encode salt, hex_encode (sha256 (salt ++ sb)), scopes⟩ ∧
      st' = fun i => if i = uuid_hex u then some r else store i := by
  cases ttl with
  | some d0 =>
      simp only [generate_key] at hg
      split at hg
      · exact Option.noConfusion hg
      · split at hg
        · exact Option.noConfusion hg
        · rename_i hguard2
          rw [hex_decode_hex_encode sb hsb] at hg
          simp only [Option.some.injEq, Prod.mk.injEq] at hg
          obtain ⟨hg1, hg2, hg3⟩ := hg
          refine ⟨some d0, ?_, hg1.symm, hg2.symm, by rw [← hg3, ← hg2]⟩
          intro d hd
          cases hd
          simpa using hguard2
  | none =>
      simp only [generate_key] at hg
      split at hg
      · exact Option.noConfusion hg
      · split at hg
        · exact Option.noConfusion hg
        · rename_i hguard2
          rw [hex_decode_hex_encode sb hsb] at hg
          simp only [Option.some.injEq, Prod.mk.injEq] at hg
          obtain ⟨hg1, hg2, hg3⟩ := hg
          refine ⟨env.default_ttl_seconds, ?_, hg1.symm, hg2.symm, by rw [← hg3, ← hg2]⟩
          intro d hd
          rw [hd] at hguard2
          simpa using hguard2

/-- C5: immediately verifying the token returned by an accepted
`generate_key` call yields `Valid` with the generated key's id, label,
expiry and scopes. -/
theorem generate_verify_roundtrip (env : GenEnv) (store : KeyLookup) (now u : Nat)
    (sb salt : List Nat) (label : Option (List Char)) (ttl : Option Nat)
    (scopes : Option (List (List Char))) (g : GeneratedKey) (r : ApiKeyRecord)
    (st' : KeyLookup)
    (hsb_len : sb.length = 32)
    (hsb : ∀ b ∈ sb, b < 256) (hsalt : ∀ b ∈ salt, b < 256)
    (hg : generate_key env store now u sb salt label ttl scopes = some (g, r, st')) :
    verify st' now g.token = .Valid g.id g.label g.expires_at g.scopes := by
  obtain ⟨ttl_eff, httl, hgk, hr, hst⟩ :=
    generate_key_components env store now u sb salt label ttl scopes g r st' hsb hg
  obtain ⟨hid_len, hid_hex, hid_dot⟩ := uuid_hex_facts u
  have hsec_len : 32 ≤ (hex_encode sb).length := by
    rw [hex_encode_length, hsb_len]
    omega
  have hparse : parse_token ("sk_".toList ++ uuid_hex u ++ '.' :: hex_encode sb) =
      some (uuid_hex u, hex_encode sb) :=
    parse_token_generated (uuid_hex u) (hex_encode sb) hid_len hid_hex hid_dot
      hsec_len (is_hex_hex_encode sb hsb)
  have hlookup : st' (uuid_hex u) = some r := by
    rw [hst]
    simp
  have hdigest : ∀ b ∈ sha256 (salt ++ sb), b < 256 := sha256_bytes_lt _
  have htok : g.token = "sk_".toList ++ uuid_hex u ++ '.' :: hex_encode sb := by
    rw [hgk]
  rw [htok]
  have hvh : verify_hash r (hex_encode sb) = .Valid r.id r.label r.expires_at r.scopes := by
    unfold verify_hash
    rw [show r.salt_hex = hex_encode salt from by rw [hr],
      show r.hash_hex = hex_encode (sha256 (salt ++ sb)) from by rw [hr]]
    simp only [hex_decode_hex_encode salt hsalt, hex_decode_hex_encode sb hsb,
      hex_decode_hex_encode _ hdigest]
    rw [if_pos (ct_eq_self _)]
  have hfields : r.id = g.id ∧ r.label = g.label ∧ r.expires_at = g.expires_at ∧
      r.scopes = g.scopes := by
    rw [hr, hgk]
    exact ⟨rfl, rfl, rfl, rfl⟩
  have hrv : r.revoked_at = none := by rw [hr]
  simp only [verify, hparse, hlookup, hrv]
  cases httl_eff : ttl_eff with
  | none =>
      have hexp : r.expires_at = none := by rw [hr, httl_eff]; rfl
      simp only [hexp]
      rw [hvh, hfields.1, hfields.2.1, hfields.2.2.1, hfields.2.2.2]
  | some d =>
      have hd : d ≠ 0 := httl d httl_eff
      have hexp : r.expires_at = some (now + d) := by rw [hr, httl_eff]; rfl
      simp only [hexp]
      rw [if_neg (by omega)]
      rw [hvh, hfields.1, hfields.2.1, hfields.2.2.1, hfields.2.2.2]

/-- Witness for C5's theorem at concrete inputs. -/
theorem generate_verify_roundtrip_witness :
    (match h : generate_key ⟨false, false, none⟩ emptyStore 0 0 (List.replicate 32 0)
        (List.replicate 16 0) none (some 60) none with
     | some (g, _, st') => verify st' 0 g.token = .Valid g.id g.label g.expires_at g.scopes
     | none => False) := by
  split
  · rename_i g r st' h
    exact generate_verify_roundtrip ⟨false, false, none⟩ emptyStore 0 0
      (List.replicate 32 0) (List.replicate 16 0) none (some 60) none g r st'
      (by simp) (by simp) (by simp) h
  · rename_i h
    have hsome : (generate_key ⟨false, false, none⟩ emptyStore 0 0 (List.replicate 32 0)
        (List.replicate 16 0) none (some 60) none).isSome = true := rfl
    rw [h] at hsome
    exact absurd hsome (by simp)

/-- A found `\n\n` window lies inside the buffer. -/
theorem find2nl_le (l : List Nat) (pos : Nat) (h : find2nl l = some pos) :
    pos + 2 ≤ l.length := by
  induction l generalizing pos with
  | nil => simp [find2nl] at h
  | cons a t ih =>
      cases t with
      | nil => simp [find2nl] at h
      | cons b rest =>
          rw [find2nl] at h
          split at h
          · cases h
            simp
          · simp only [Option.map_eq_some'] at h
            obtain ⟨q, hq, hpos⟩ := h
            have := ih q hq
            simp only [List.length_cons] at this ⊢
            omega

/-- The first `\n\n` of a buffer stays the first after appending bytes. -/
theorem find2nl_append_of_some (buf z : List Nat) (pos : Nat)
    (h : find2nl buf = some pos) : find2nl (buf ++ z) = some pos := by
  induction buf generalizing pos with
  | nil => simp [find2nl] at h
  | cons a t ih =>
      cases t with
      | nil => simp [find2nl] at h
      | cons b rest =>
          rw [find2nl] at h
          rw [List.cons_append, List.cons_append, find2nl]
          split at h <;> rename_i hcond
          · cases h
            rw [if_pos hcond]
          · rw [if_neg hcond]
            simp only [Option.map_eq_some'] at h
            obtain ⟨q, hq, hpos⟩ := h
            have := ih q hq
            rw [List.cons_append] at this
            rw [this]
            simp [hpos]

/-- `splitFuel` ignores its fuel once the buffer has no complete event. -/
theorem splitFuel_none (n : Nat) (l : List Nat) (h : find2nl l = none) :
    splitFuel n l = ([], l) := by
  cases n with
  | zero => rfl
  | succ n => simp [splitFuel, h]

/-- `splitFuel` is fuel-insensitive above the buffer length. -/
theorem splitFuel_eq_of_le (fuel : Nat) :
    ∀ l : List Nat, l.length ≤ fuel → splitFuel fuel l = splitEvents l := by
  induction fuel using Nat.strong_induction_on with
  | _ fuel ih =>
      intro l hlen
      cases fuel with
      | zero =>
          have : l = [] := List.length_eq_zero.mp (Nat.le_zero.mp hlen)
          subst this
          rfl
      | succ f =>
          cases hfind : find2nl l with
          | none => rw [splitFuel_none _ _ hfind, splitEvents, splitFuel_none _ _ hfind]
          | some pos =>
              have hle := find2nl_le l pos hfind
              have hlen1 : l.length = (l.length - 1) + 1 := by omega
              rw [splitEvents, hlen1]
              simp only [splitFuel, hfind]
              have h1 : splitFuel f (l.drop (pos + 2)) = splitEvents (l.drop (pos + 2)) :=
                ih f (by omega) _ (by simp only [List.length_drop]; omega)
              have h2 : splitFuel (l.length - 1) (l.drop (pos + 2)) =
                  splitEvents (l.drop (pos + 2)) :=
                ih (l.length - 1) (by omega) _ (by simp only [List.length_drop]; omega)
              rw [h1, h2]

/-- Unfolding `splitEvents` when the buffer has no complete event. -/
theorem splitEvents_eq_none (l : List Nat) (h : find2nl l = none) :
    splitEvents l = ([], l) := splitFuel_none _ _ h

/-- Unfolding `splitEvents` at the first complete event. -/
theorem splitEvents_eq_some (l : List Nat) (pos : Nat) (h : find2nl l = some pos) :
    splitEvents l = (l.take (pos + 2) :: (splitEvents (l.drop (pos + 2))).1,
      (splitEvents (l.drop (pos + 2))).2) := by
  have hle := find2nl_le l pos h
  have hlen1 : l.length = (l.length - 1) + 1 := by omega
  rw [splitEvents, hlen1]
  simp only [splitFuel, h]
  have : splitFuel (l.length - 1) (l.drop (pos + 2)) = splitEvents (l.drop (pos + 2)) :=
    splitFuel_eq_of_le _ _ (by simp only [List.length_drop]; omega)
  rw [this]

/-- `mapEvents` on a cons, in projection form. -/
theorem mapEvents_cons (env : SseEnv) (e : List Nat) (es : List (List Nat)) (fst : Bool) :
    mapEvents env (e :: es) fst =
      ((processEvent env e fst).1 ::
        (mapEvents env es (processEvent env e fst).2).1,
       (mapEvents env es (processEvent env e fst).2).2) := rfl

/-- `drainFuel` drains exactly the events `splitFuel` cuts, processing
them in order. -/
theorem drainFuel_eq (env : SseEnv) (fuel : Nat) :
    ∀ (buf : List Nat) (fst : Bool),
    drainFuel env fuel buf fst =
      ((mapEvents env (splitFuel fuel buf).1 fst).1, (splitFuel fuel buf).2,
       (mapEvents env (splitFuel fuel buf).1 fst).2) := by
  induction fuel with
  | zero => intro buf fst; rfl
  | succ fuel ih =>
      intro buf fst
      cases hfind : find2nl buf with
      | none =>
          have hne : next_event env buf fst = none := by
            simp [next_event, hfind]
          simp [drainFuel, hne, splitFuel, hfind, mapEvents]
      | some pos =>
          have hne : next_event env buf fst =
              some ((processEvent env (buf.take (pos + 2)) fst).1,
                buf.drop (pos + 2), (processEvent env (buf.take (pos + 2)) fst).2) := by
            simp [next_event, hfind]
          simp only [drainFuel, hne, splitFuel, hfind, ih, mapEvents_cons]

/-- `drainEvents` in terms of `splitEvents`. -/
theorem drainEvents_eq (env : SseEnv) (buf : List Nat) (fst : Bool) :
    drainEvents env buf fst =
      ((mapEvents env (splitEvents buf).1 fst).1, (splitEvents buf).2,
       (mapEvents env (splitEvents buf).1 fst).2) :=
  drainFuel_eq env buf.length buf fst

/-- Splitting a concatenation: the events of the prefix come first, then
the events of its remainder joined with the suffix. -/
theorem splitEvents_append (buf z : List Nat) :
    splitEvents (buf ++ z) =
      ((splitEvents buf).1 ++ (splitEvents ((splitEvents buf).2 ++ z)).1,
       (splitEvents ((splitEvents buf).2 ++ z)).2) := by
  have main : ∀ (n : Nat) (buf : List Nat), buf.length ≤ n →
      splitEvents (buf ++ z) =
        ((splitEvents buf).1 ++ (splitEvents ((splitEvents buf).2 ++ z)).1,
         (splitEvents ((splitEvents buf).2 ++ z)).2) := by
    intro n
    induction n with
    | zero =>
        intro buf hlen
        have : buf = [] := List.length_eq_zero.mp (Nat.le_zero.mp hlen)
        subst this
        simp [splitEvents_eq_none [] rfl]
    | succ n ih =>
        intro buf hlen
        cases hfind : find2nl buf with
        | none =>
            rw [splitEvents_eq_none buf hfind]
            simp
        | some pos =>
            have hle := find2nl_le buf pos hfind
            have hfind' := find2nl_append_of_some buf z pos hfind
            rw [splitEvents_eq_some buf pos hfind,
              splitEvents_eq_some (buf ++ z) pos hfind']
            rw [List.take_append_of_le_length (by omega),
              List.drop_append_of_le_length (by omega)]
            have hrest : (buf.drop (pos + 2)).length ≤ n := by
              simp only [List.length_drop]
              omega
            rw [ih (buf.drop (pos + 2)) hrest]
            simp
  exact main buf.length buf le_rfl

/-- `mapEvents` over an append, threading the flag. -/
theorem mapEvents_append (env : SseEnv) (es fs : List (List Nat)) (fst : Bool) :
    mapEvents env (es ++ fs) fst =
      ((mapEvents env es fst).1 ++
        (mapEvents env fs (mapEvents env es fst).2).1,
       (mapEvents env fs (mapEvents env es fst).2).2) := by
  induction es generalizing fst with
  | nil => rfl
  | cons e t ih => simp [mapEvents_cons, ih]

/-- The full `poll_next` driver: drain, refill, and flush the remainder —
equal to processing the complete events of the concatenated byte stream
in order and flushing the final partial event. -/
theorem pollRun_spec (env : SseEnv) :
    ∀ (chunks : List (List Nat)) (buf : List Nat) (fst : Bool),
    pollRun env chunks buf fst =
      (mapEvents env (splitEvents (buf ++ chunks.flatten)).1 fst).1 ++
        (if (splitEvents (buf ++ chunks.flatten)).2 = [] then []
         else [(splitEvents (buf ++ chunks.flatten)).2]) := by
  intro chunks
  induction chunks with
  | nil =>
      intro buf fst
      simp only [pollRun, drainEvents_eq, List.flatten_nil, List.append_nil]
  | cons c cs ih =>
      intro buf fst
      simp only [pollRun, drainEvents_eq]
      rw [ih]
      have hassoc : buf ++ (c :: cs).flatten = buf ++ (c ++ cs.flatten) := by simp
      rw [hassoc, splitEvents_append buf (c ++ cs.flatten), mapEvents_append]
      simp [List.append_assoc]

/-- The `is_first_chunk` flag after one event: cleared exactly when the
event's payload parsed as a Responses chunk. -/
theorem processEvent_flag (env : SseEnv) (e : List Nat) (fst : Bool) :
    (processEvent env e fst).2 = (fst && !(eventParses env e)) := by
  unfold processEvent eventParses
  by_cases h1 : dataSegments e = []
  · simp [h1]
  · rw [if_neg h1]
    by_cases h2 : trim_ascii (dataPayload e) = doneBytes
    · simp [h1, h2]
    · cases hp : env.parseChunk (dataPayload e) with
      | none => simp [h1, h2, hp]
      | some chunk =>
          cases hs : env.chunkToBytes
              (Conversion.responses_chunk_to_chat_chunk chunk fst) <;>
            simp [h1, h2, hp, hs]

/-- The flag after a run of events: still first iff no event parsed. -/
theorem mapEvents_flag (env : SseEnv) :
    ∀ (es : List (List Nat)) (fst : Bool),
    (mapEvents env es fst).2 = (fst && !(es.any (eventParses env))) := by
  intro es
  induction es with
  | nil => intro fst; simp [mapEvents]
  | cons e t ih =>
      intro fst
      rw [mapEvents_cons]
      simp only []
      rw [ih, processEvent_flag]
      cases fst <;> cases he : eventParses env e <;> simp [he]

/-- C2: the Responses-SSE → Chat-SSE transducer (for any serde behaviour)
(a) emits exactly one output event per complete `\n\n`-terminated source
event, in source order, flushing a trailing partial event as-is at end of
input; (b) re-emits a `[DONE]` data payload as `data: [DONE]\n\n`
(after the retained non-data lines); (c) forwards the original event
bytes unchanged whenever the payload is not `[DONE]` and fails to parse
as a Responses chunk; (d) marks `delta.role = "assistant"` exactly on a
chunk converted as first; and (e) the first-chunk flag fed to an event
holds exactly while no earlier event's payload has parsed. -/
theorem sse_converter_behaviour (env : SseEnv) :
    (∀ chunks : List (List Nat), runConverter env chunks =
      (mapEvents env (splitEvents chunks.flatten).1 true).1 ++
        (if (splitEvents chunks.flatten).2 = [] then []
         else [(splitEvents chunks.flatten).2])) ∧
    (∀ (e : List Nat) (fst : Bool), dataSegments e ≠ [] →
      trim_ascii (dataPayload e) = doneBytes →
      processEvent env e fst =
        (outLines (otherLines e) ++ dataColonSp ++ doneBytes ++ [10, 10], fst)) ∧
    (∀ (e : List Nat) (fst : Bool), trim_ascii (dataPayload e) ≠ doneBytes →
      env.parseChunk (dataPayload e) = none → processEvent env e fst = (e, fst)) ∧
    (∀ (c : ResponsesChunk) (fst : Bool),
      (Conversion.responses_chunk_to_chat_chunk c fst).choices.map
          (fun ch => ch.delta.role) =
        [if fst then some "assistant" else none]) ∧
    (∀ (es : List (List Nat)) (i : Nat),
      (mapEvents env (es.take i) true).2 = !((es.take i).any (eventParses env))) := by
  refine ⟨?_, ?_, ?_, ?_, ?_⟩
  · intro chunks
    have := pollRun_spec env chunks [] true
    simpa [runConverter] using this
  · intro e fst h1 h2
    unfold processEvent
    rw [if_neg h1, if_pos h2]
  · intro e fst h2 hp
    unfold processEvent
    by_cases h1 : dataSegments e = []
    · rw [if_pos h1]
    · rw [if_neg h1, if_neg h2, hp]
  · intro c fst
    rfl
  · intro es i
    rw [mapEvents_flag]
    simp

/-- Witness for C2's theorem at concrete inputs: an event whose payload
does not parse is forwarded unchanged. -/
theorem sse_converter_behaviour_witness :
    processEvent ⟨fun _ => none, fun _ => none⟩ [120, 10, 10] true =
      ([120, 10, 10], true) :=
  (sse_converter_behaviour ⟨fun _ => none, fun _ => none⟩).2.2.1
    [120, 10, 10] true (by decide) rfl

end Claims

end Routiium
